import Mathlib

/-!
# Record synthesis of the kubernetes middleware (`middleware/kubernetes/lookup.go`)

A shallow embedding of `Kubernetes.records`, `AAAA`, `SRV`, `NS`, `SOA` and `PTR`.

* Go's multiple return values are kept as tuples: `(records, err)` with
  `err = none` for Go's `nil` error and `[]` for a `nil` slice.
* Collaborators whose code is outside the translated file (registry, resolver,
  `net`, `dns`, `dnsutil`, `middleware`) are the fields of `Env`.
* The recursion of `AAAA` is bounded by a fuel argument; `AAAA_returns` and
  `AAAAfuel_enough` show that the bound used by `AAAA` is never exhausted.
* `NS` assigns to the request it shares with its caller; it returns the request
  as the caller finds it afterwards.
* `float64` values are the IEEE 754 binary64 numbers: an operation is the
  exact rational result rounded to nearest, ties to even (`roundF64`); Go's
  `int` is the 64-bit integer of the usual platforms (`wrapInt`), and the
  conversion of a `float64` to `uint16` is the one of amd64.
* The clock read by `SOA` is a parameter.
-/

namespace Kubernetes

/-! ## Data model -/

/-- Go's `error`, identified with its message. -/
abbrev Err := String

/-- Result of `net.ParseIP` as the code inspects it: `v4` when `ip.To4() != nil`,
`v6` when the address parsed and `ip.To4() == nil`.  The payload is the byte
content of `ip.To4()` respectively `ip.To16()`. -/
inductive IP where
  | v4 (bytes : List Nat)
  | v6 (bytes : List Nat)
deriving DecidableEq, Repr

/-- The registry entry `msg.Service`: the fields the translated code reads. -/
structure Service where
  Host : String
  Key : String
  Port : Int
  Priority : Int
  Weight : Int
  TTL : Nat
deriving DecidableEq, Repr

/-- Record `dns.CNAME`: owner name, TTL and target. -/
structure dns.CNAME where
  Name : String
  Ttl : Nat
  Target : String
deriving DecidableEq, Repr

/-- Record `dns.SRV`: owner name, TTL, priority, weight, port and target. -/
structure dns.SRV where
  Name : String
  Ttl : Nat
  Priority : Int
  Weight : Nat
  Port : Int
  Target : String
deriving DecidableEq, Repr

/-- Resource records `dns.RR` that the translated code builds. -/
inductive RR where
  | CNAME (c : dns.CNAME)
  | SRV (s : dns.SRV)
  | AAAA (name : String) (ttl : Nat) (ip : IP)
  | A (name : String) (ttl : Nat) (ip : IP)
  | NS (name : String) (ttl : Nat) (ns : String)
  | PTR (name : String) (ttl : Nat) (ptr : String)
deriving DecidableEq, Repr

/-- Type test `_, ok := a.(*dns.CNAME)`. -/
def RR.isCNAME : RR → Bool
  | RR.CNAME _ => true
  | _ => false

/-- Modelled from the spec: `request.Request` is not under src/.  The spec's
Query State exposes the query name and the query type; `qname` is
`Req.Question[0].Name`, the field `NS` assigns to. -/
structure Request where
  qname : String
  qtype : Nat
deriving DecidableEq, Repr

/-- Modelled from the spec: `Request.Name()` is not under src/; it reads the
query name of the Query State. -/
def Request.Name (state : Request) : String := state.qname

/-- Modelled from the spec: `Request.QName()` is not under src/; it reads the
query name of the Query State. -/
def Request.QName (state : Request) : String := state.qname

/-- Modelled from the spec: `Request.QType()` is not under src/; it reads the
query type of the Query State. -/
def Request.QType (state : Request) : Nat := state.qtype

/-- Modelled from the spec: `Request.NewWithQuestion` is not under src/; the
sub-query state has the query name replaced by the given name. -/
def Request.NewWithQuestion (_state : Request) (name : String) (typ : Nat) : Request :=
  ⟨name, typ⟩

/-- Modelled from the spec: `Request.Clear()` is not under src/; it drops cached
readings of the query name, of which this model keeps none. -/
def Request.Clear (state : Request) : Request := state

/-- Collaborators of the translated file, taken as parameters. -/
structure Env where
  /-- Registry `k.Records(name, exact)`: services and error. -/
  Records : String → Bool → List Service × Option Err
  /-- Filter `msg.Group`. -/
  Group : List Service → List Service
  /-- Parser `net.ParseIP` together with the `To4` test. -/
  ParseIP : String → Option IP
  /-- Printer `net.IP.String`. -/
  IPString : IP → String
  /-- Normaliser `dns.Fqdn`. -/
  Fqdn : String → String
  /-- Test `middleware.Name(n).Matches(child)`. -/
  Matches : String → String → Bool
  /-- Test `dns.IsSubDomain(parent, child)`. -/
  IsSubDomain : String → String → Bool
  /-- Resolver `k.Proxy.Lookup(state, name, typ)`: the answer section and error. -/
  ProxyLookup : Request → String → Nat → List RR × Option Err
  /-- In-zone address lookup `middleware.A(&k, zone, state, nil, opts)`: records and error. -/
  MiddlewareA : String → Request → List RR × Option Err
  /-- Extraction `dnsutil.ExtractAddressFromReverse`. -/
  ExtractAddressFromReverse : String → String

/-- Modelled from the spec: `msg.Service.NewCNAME` is not under src/; a CNAME
record from the given owner name to the given target, with the service's TTL. -/
def Service.NewCNAME (serv : Service) (name target : String) : dns.CNAME :=
  ⟨name, serv.TTL, target⟩

/-- Modelled from the spec: `msg.Service.NewAAAA` is not under src/; an AAAA
record bound to the given name with the given address and the service's TTL. -/
def Service.NewAAAA (serv : Service) (name : String) (ip : IP) : RR :=
  RR.AAAA name serv.TTL ip

/-- Modelled from the spec: `msg.Service.NewA` is not under src/; an A record
bound to the given name with the given address and the service's TTL. -/
def Service.NewA (serv : Service) (name : String) (ip : IP) : RR :=
  RR.A name serv.TTL ip

/-- Modelled from the spec: `msg.Service.NewNS` is not under src/; an NS record
for the given owner name whose target is the service's `Host`. -/
def Service.NewNS (serv : Service) (name : String) : RR :=
  RR.NS name serv.TTL serv.Host

/-- Modelled from the spec: `msg.Service.NewPTR` is not under src/; a PTR record
for the given owner name with the given target. -/
def Service.NewPTR (serv : Service) (name target : String) : RR :=
  RR.PTR name serv.TTL target

/-- Modelled from the spec: `msg.Service.NewSRV` is not under src/; an SRV
record for the given owner name whose target is the service's `Host`, with the
service's priority and port and the given weight. -/
def Service.NewSRV (serv : Service) (name : String) (weight : Nat) : dns.SRV :=
  ⟨name, serv.TTL, serv.Priority, weight, serv.Port, serv.Host⟩

/-- Modelled from the spec: `dnsutil.DuplicateCNAME` is not under src/; the
target of `r` already appears among the CNAME records of `records`. -/
def DuplicateCNAME (r : dns.CNAME) (records : List RR) : Bool :=
  records.any (fun rec =>
    match rec with
    | RR.CNAME v => decide (v.Target = r.Target)
    | _ => false)

/-! ## The translated functions -/

/-- Lookup facade `Kubernetes.records`. -/
def records (E : Env) (state : Request) (exact : Bool) : List Service × Option Err :=
  match E.Records state.Name exact with
  | (_, some err) => ([], some err)
  | (services, none) => (E.Group services, none)

/-- One iteration of the `for _, serv := range services` loop of `AAAA`:
`acc` is `records` before the iteration, the value is `records` after it.
`recur` stands for the recursive call `k.AAAA(zone, ·, ·)`; `none` is a
recursive call that did not return. -/
def AAAAserv (E : Env) (zone : String)
    (recur : Request → List RR → Option (List RR × Option Err))
    (state : Request) (previousRecords : List RR) (acc : List RR) (serv : Service) :
    Option (List RR) :=
  match E.ParseIP serv.Host with
  | none =>
    if E.Matches state.Name (E.Fqdn serv.Host) then some acc
    else
      let newRecord := serv.NewCNAME state.QName serv.Host
      if previousRecords.length > 7 then some acc
      else if DuplicateCNAME newRecord previousRecords then some acc
      else
        let state1 := state.NewWithQuestion serv.Host state.QType
        match recur state1 (previousRecords ++ [RR.CNAME newRecord]) with
        | none => none
        | some (nextRecords, none) =>
          if nextRecords.length > 0 then some (acc ++ [RR.CNAME newRecord] ++ nextRecords)
          else some acc
        | some (_, some _) =>
          let target := newRecord.Target
          if E.IsSubDomain zone target then some acc
          else
            match E.ProxyLookup state target state.QType with
            | (_, some _) => some acc
            | (answer, none) => some (acc ++ [RR.CNAME newRecord] ++ answer)
  | some (IP.v4 _) => some acc
  | some (IP.v6 b) => some (acc ++ [serv.NewAAAA state.QName (IP.v6 b)])

/-- The loop `for _, serv := range services` of `AAAA`. -/
def AAAAloop (E : Env) (zone : String)
    (recur : Request → List RR → Option (List RR × Option Err))
    (state : Request) (previousRecords : List RR) : List RR → List Service → Option (List RR)
  | acc, [] => some acc
  | acc, serv :: rest =>
    match AAAAserv E zone recur state previousRecords acc serv with
    | none => none
    | some acc1 => AAAAloop E zone recur state previousRecords acc1 rest

/-- Body of `Kubernetes.AAAA`, with the recursive call abstracted as `recur`. -/
def AAAAbody (E : Env) (zone : String)
    (recur : Request → List RR → Option (List RR × Option Err))
    (state : Request) (previousRecords : List RR) : Option (List RR × Option Err) :=
  match records E state false with
  | (_, some err) => some ([], some err)
  | (services, none) =>
    match AAAAloop E zone recur state previousRecords [] services with
    | none => none
    | some recs => some (recs, none)

/-- Function `Kubernetes.AAAA` with a bound on the nesting of recursive calls;
`none` when the bound is exhausted before the call returns. -/
def AAAAfuel (E : Env) (zone : String) : Nat → Request → List RR → Option (List RR × Option Err)
  | 0, _, _ => none
  | fuel + 1, state, previousRecords =>
    AAAAbody E zone (AAAAfuel E zone fuel) state previousRecords

/-- Function `Kubernetes.AAAA`: from a chain of `n` records at most `8 - n`
recursive calls nest below the call (see `AAAAfuel_enough`). -/
def AAAA (E : Env) (zone : String) (state : Request) (previousRecords : List RR) :
    Option (List RR × Option Err) :=
  AAAAfuel E zone ((8 - previousRecords.length) + 1) state previousRecords

/-- Record type `dns.TypeA`. -/
def dns.TypeA : Nat := 1

/-- Record type `dns.TypeAAAA`. -/
def dns.TypeAAAA : Nat := 28

/-- Conversion `uint16(·)` of an integral value: reduction modulo 2^16. -/
def uint16 (z : Int) : Nat := (z % 65536).toNat

/-- Go's `int` on a 64-bit platform: a sum is reduced to the range of `int64`
(two's complement wrap-around). -/
def wrapInt (z : Int) : Int := (z + 2 ^ 63) % 2 ^ 64 - 2 ^ 63

/-- Values of Go's `float64` (IEEE 754 binary64): a finite number, given by its
exact rational value, an infinity with its sign, or NaN.  The sign of a zero is
not kept. -/
inductive F64 where
  | fin (v : ℚ)
  | inf (negative : Bool)
  | nan
deriving DecidableEq

/-- Rounding of a rational to the nearest integer, ties to the even one. -/
def roundHalfEven (y : ℚ) : Int :=
  let f := ⌊y⌋
  if y - f < 1 / 2 then f
  else if 1 / 2 < y - f then f + 1
  else if f % 2 = 0 then f else f + 1

/-- The binary exponent of a positive rational `a`: the `e` with
`2^e ≤ a < 2^(e+1)` (see `binade_spec`). -/
def binade (a : ℚ) : Int :=
  let e0 : Int := (a.num.natAbs.log2 : Int) - (a.den.log2 : Int)
  if (2 : ℚ) ^ e0 ≤ a then e0 else e0 - 1

/-- IEEE 754 rounding of an exact result to binary64, round to nearest, ties to
even: 53 significant bits, least exponent of the last bit -1074 (subnormal
numbers), overflow to an infinity. -/
def roundF64 (x : ℚ) : F64 :=
  if x = 0 then F64.fin 0
  else
    let e := binade |x|
    let q := max (e - 52) (-1074)
    let m := roundHalfEven (|x| / (2 : ℚ) ^ q)
    let v := (m : ℚ) * (2 : ℚ) ^ q
    if (2 : ℚ) ^ (1024 : Int) ≤ v then F64.inf (decide (x < 0))
    else F64.fin (if x < 0 then -v else v)

/-- Conversion `float64(·)` of a Go `int`. -/
def float64 (z : Int) : F64 := roundF64 (z : ℚ)

/-- Division of `float64` values. -/
def F64.div : F64 → F64 → F64
  | F64.fin a, F64.fin b =>
    if b = 0 then (if a = 0 then F64.nan else F64.inf (decide (a < 0)))
    else roundF64 (a / b)
  | F64.fin _, F64.inf _ => F64.fin 0
  | F64.inf s, F64.fin b => F64.inf (Bool.xor s (decide (b < 0)))
  | F64.inf _, F64.inf _ => F64.nan
  | F64.nan, _ => F64.nan
  | _, F64.nan => F64.nan

/-- Multiplication of `float64` values. -/
def F64.mul : F64 → F64 → F64
  | F64.fin a, F64.fin b => roundF64 (a * b)
  | F64.fin a, F64.inf s => if a = 0 then F64.nan else F64.inf (Bool.xor s (decide (a < 0)))
  | F64.inf s, F64.fin b => if b = 0 then F64.nan else F64.inf (Bool.xor s (decide (b < 0)))
  | F64.inf s, F64.inf t => F64.inf (Bool.xor s t)
  | F64.nan, _ => F64.nan
  | _, F64.nan => F64.nan

/-- Function `math.Floor`. -/
def F64.floor : F64 → F64
  | F64.fin v => F64.fin (⌊v⌋ : Int)
  | x => x

/-- Conversion `uint16(·)` of a `float64`: the value truncated toward zero and
reduced modulo 2^16.  Go leaves the result for a value outside the range of
the integer type to the implementation; taken here is what the amd64 compiler
does, a conversion through `int32` that gives 0 for an infinity, NaN or a value
outside the range of `int32`. -/
def F64.toUint16 : F64 → Nat
  | F64.fin v =>
    let z : Int := if 0 ≤ v then ⌊v⌋ else ⌈v⌉
    if -2 ^ 31 ≤ z ∧ z < 2 ^ 31 then uint16 z else 0
  | _ => 0

/-- First loop of `SRV`: the map `w` from priority to summed weight.  A
priority absent from the map is `none`.  Sums are those of Go's 64-bit `int`. -/
def SRVweights : (Int → Option Int) → List Service → (Int → Option Int)
  | w, [] => w
  | w, serv :: rest =>
    let weight := if serv.Weight ≠ 0 then serv.Weight else 100
    match w serv.Priority with
    | none => SRVweights (Function.update w serv.Priority (some weight)) rest
    | some t => SRVweights (Function.update w serv.Priority (some (wrapInt (t + weight)))) rest

/-- The weight computed at the head of an iteration of the second loop of
`SRV`, in `float64` arithmetic; `w[p]` of an absent priority is Go's zero
value. -/
def SRVweight (w : Int → Option Int) (serv : Service) : Nat :=
  let w1 : F64 := F64.div (F64.fin 100) (float64 ((w serv.Priority).getD 0))
  let w1 : F64 :=
    if serv.Weight = 0 then F64.mul w1 (F64.fin 100) else F64.mul w1 (float64 serv.Weight)
  F64.toUint16 (F64.floor w1)

/-- Second loop of `SRV`: `records`, `extra` and the set `lookup` of targets
seen are threaded through the iterations. -/
def SRVloop (E : Env) (zone : String) (state : Request) (w : Int → Option Int) :
    List RR → List RR → List String → List Service → List RR × List RR
  | records, extra, _, [] => (records, extra)
  | records, extra, lookup, serv :: rest =>
    let weight := SRVweight w serv
    match E.ParseIP serv.Host with
    | none =>
      let srv := serv.NewSRV state.QName weight
      let records := records ++ [RR.SRV srv]
      if srv.Target ∈ lookup then SRVloop E zone state w records extra lookup rest
      else
        let lookup := srv.Target :: lookup
        if !E.IsSubDomain zone srv.Target then
          let extra :=
            match E.ProxyLookup state srv.Target dns.TypeA with
            | (answer, none) => extra ++ answer
            | (_, some _) => extra
          let extra :=
            match E.ProxyLookup state srv.Target dns.TypeAAAA with
            | (answer, none) => extra ++ answer.filter (fun a => !a.isCNAME)
            | (_, some _) => extra
          SRVloop E zone state w records extra lookup rest
        else
          let state1 := state.NewWithQuestion srv.Target dns.TypeA
          match E.MiddlewareA zone state1 with
          | (addr, none) => SRVloop E zone state w records (extra ++ addr) lookup rest
          | (_, some _) => SRVloop E zone state w records extra lookup rest
    | some (IP.v4 b) =>
      let serv : Service := { serv with Host := serv.Key }
      let srv := serv.NewSRV state.QName weight
      SRVloop E zone state w (records ++ [RR.SRV srv])
        (extra ++ [serv.NewA srv.Target (IP.v4 b)]) lookup rest
    | some (IP.v6 b) =>
      let serv : Service := { serv with Host := serv.Key }
      let srv := serv.NewSRV state.QName weight
      SRVloop E zone state w (records ++ [RR.SRV srv])
        (extra ++ [serv.NewAAAA srv.Target (IP.v6 b)]) lookup rest

/-- Function `Kubernetes.SRV`: `(records, extra, err)`. -/
def SRV (E : Env) (zone : String) (state : Request) : List RR × List RR × Option Err :=
  match records E state false with
  | (_, some err) => ([], [], some err)
  | (services, none) =>
    let w := SRVweights (fun _ => none) services
    match SRVloop E zone state w [] [] [] services with
    | (records, extra) => (records, extra, none)

/-- Loop of `NS` over the services; a `Host` that is not an address ends it
with `return nil, nil, fmt.Errorf(...)`. -/
def NSloop (E : Env) (state : Request) :
    List RR → List RR → List Service → List RR × List RR × Option Err
  | records, extra, [] => (records, extra, none)
  | records, extra, serv :: rest =>
    match E.ParseIP serv.Host with
    | none => ([], [], some ("NS record must be an IP address: " ++ serv.Host))
    | some (IP.v4 b) =>
      let serv : Service := { serv with Host := serv.Key }
      NSloop E state (records ++ [serv.NewNS state.QName])
        (extra ++ [serv.NewA serv.Host (IP.v4 b)]) rest
    | some (IP.v6 b) =>
      let serv : Service := { serv with Host := serv.Key }
      NSloop E state (records ++ [serv.NewNS state.QName])
        (extra ++ [serv.NewAAAA serv.Host (IP.v6 b)]) rest

/-- What `NS` returns, together with the request as the caller finds it
afterwards: `state.Req.Question` is shared with the caller, so the assignments
to `state.Req.Question[0].Name` are the caller's to see. -/
structure NSResult where
  records : List RR
  extra : List RR
  err : Option Err
  state : Request
deriving DecidableEq, Repr

/-- Function `Kubernetes.NS`. -/
def NS (E : Env) (zone : String) (state : Request) : NSResult :=
  let old := state.QName
  let state := state.Clear
  let state : Request := { state with qname := "ns.dns." ++ zone }
  match Kubernetes.records E state false with
  | (_, some err) => ⟨[], [], some err, state⟩
  | (services, none) =>
    let state : Request := { state with qname := old }
    match NSloop E state [] [] services with
    | (records, extra, err) => ⟨records, extra, err, state⟩

/-- Loop of `PTR` over the services. -/
def PTRloop (E : Env) (state : Request) (reverseIP : String) :
    List (Option RR) → List Service → List (Option RR)
  | records, [] => records
  | records, serv :: rest =>
    let ip := E.ParseIP serv.Host
    if reverseIP ≠ serv.Host then PTRloop E state reverseIP records rest
    else
      match ip with
      | some (IP.v4 b) =>
        PTRloop E state reverseIP
          (records ++ [some (serv.NewPTR state.QName (E.IPString (IP.v4 b)))]) rest
      | _ => PTRloop E state reverseIP records rest

/-- Function `Kubernetes.PTR`.  An element `none` of the returned list is a
`nil` entry of the Go slice: `make([]dns.RR, 1)` is a slice of one `nil`. -/
def PTR (E : Env) (_zone : String) (state : Request) : List (Option RR) × Option Err :=
  let reverseIP := E.ExtractAddressFromReverse state.Name
  if reverseIP = "" then ([], some ("does not support reverse lookup for " ++ state.QName))
  else
    let records : List (Option RR) := List.replicate 1 none
    match Kubernetes.records E state false with
    | (_, some err) => ([], some err)
    | (services, none) => (PTRloop E state reverseIP records services, none)

/-- Record `dns.SOA`: the header fields `Name`, `Rrtype`, `Ttl` and `Class`,
then the fields of the record. -/
structure dns.SOA where
  Name : String
  Rrtype : Nat
  Ttl : Nat
  Class : Nat
  Mbox : String
  Ns : String
  Serial : Nat
  Refresh : Nat
  Retry : Nat
  Expire : Nat
  Minttl : Nat
deriving DecidableEq, Repr

/-- Record type `dns.TypeSOA`. -/
def dns.TypeSOA : Nat := 6

/-- Class `dns.ClassINET`. -/
def dns.ClassINET : Nat := 1

/-- Conversion `uint32(·)` of an integral value: reduction modulo 2^32. -/
def uint32 (z : Int) : Nat := (z % 4294967296).toNat

/-- Function `Kubernetes.SOA`; `now` is the value of `time.Now().Unix()`. -/
def SOA (now : Int) (zone : String) (_state : Request) : dns.SOA where
  Name := zone
  Rrtype := dns.TypeSOA
  Ttl := 300
  Class := dns.ClassINET
  Mbox := "hostmaster." ++ zone
  Ns := "ns.dns." ++ zone
  Serial := uint32 now
  Refresh := 7200
  Retry := 1800
  Expire := 86400
  Minttl := 60

/-! ## Notions used to state the properties -/

/-- The collaborators `E` with the services rejected by `keep` removed from
every list the lookup facade `records` returns. -/
def Env.dropServices (E : Env) (keep : Service → Bool) : Env :=
  { E with Group := fun sx => (E.Group sx).filter keep }

/-- No CNAME record of the list has a target equal to its owner name. -/
def NoSelfLoop (rs : List RR) : Prop :=
  ∀ v : dns.CNAME, RR.CNAME v ∈ rs → v.Target ≠ v.Name

/-- The weight a service counts for in the first loop of `SRV`: its `Weight`,
or 100 when the weight is unset. -/
def effWeight (serv : Service) : Int :=
  if serv.Weight ≠ 0 then serv.Weight else 100

/-- The services of the list that carry priority `p`. -/
def priorityGroup (p : Int) (svcs : List Service) : List Service :=
  svcs.filter (fun s => decide (s.Priority = p))

/-- The total the first loop of `SRV` reaches for one priority from the
effective weights of its services, in order: the first is stored, each later
one is added in Go's `int`. -/
def groupTotal (cur : Option Int) : List Int → Option Int
  | [] => cur
  | e :: es =>
    groupTotal (some (match cur with
      | none => e
      | some t => wrapInt (t + e))) es

/-- The record the second loop of `SRV` appends to `records` for `serv`. -/
def SRVrecord (E : Env) (state : Request) (w : Int → Option Int) (serv : Service) : RR :=
  match E.ParseIP serv.Host with
  | none => RR.SRV (serv.NewSRV state.QName (SRVweight w serv))
  | some _ =>
    RR.SRV (({ serv with Host := serv.Key } : Service).NewSRV state.QName (SRVweight w serv))

/-- The glue record `NS` appends to `extra` for a service, when its `Host` is
an address. -/
def NSglue (E : Env) (serv : Service) : Option RR :=
  match E.ParseIP serv.Host with
  | none => none
  | some (IP.v4 b) => some (RR.A serv.Key serv.TTL (IP.v4 b))
  | some (IP.v6 b) => some (RR.AAAA serv.Key serv.TTL (IP.v6 b))

/-- The entry the loop of `PTR` appends to `records` for a service, if any. -/
def PTRentry (E : Env) (state : Request) (reverseIP : String) (serv : Service) :
    Option (Option RR) :=
  if reverseIP ≠ serv.Host then none
  else
    match E.ParseIP serv.Host with
    | some (IP.v4 b) => some (some (serv.NewPTR state.QName (E.IPString (IP.v4 b))))
    | _ => none

/-- A glue lookup made by the second loop of `SRV`: a call
`k.Proxy.Lookup(state, name, typ)` or the in-zone `middleware.A` for `name`. -/
inductive GlueLookup where
  | proxy (name : String) (typ : Nat)
  | inZone (name : String)
deriving DecidableEq, Repr

/-- The name a glue lookup asks for. -/
def GlueLookup.name : GlueLookup → String
  | GlueLookup.proxy name _ => name
  | GlueLookup.inZone name => name

/-- Loop state of the second loop of `SRV`: `records`, `extra`, the set
`lookup` of targets seen, and the glue lookups made so far (`calls` is a log,
the code keeps no such list). -/
structure SRVstate where
  records : List RR
  extra : List RR
  lookup : List String
  calls : List GlueLookup
deriving DecidableEq, Repr

/-- One iteration of the second loop of `SRV` on the loop state, logging the
glue lookups it makes; `SRVloop_fold` shows that `SRVloop` is the iteration of
this step. -/
def SRVserv (E : Env) (zone : String) (state : Request) (w : Int → Option Int)
    (st : SRVstate) (serv : Service) : SRVstate :=
  let weight := SRVweight w serv
  match E.ParseIP serv.Host with
  | none =>
    let srv := serv.NewSRV state.QName weight
    let records := st.records ++ [RR.SRV srv]
    if srv.Target ∈ st.lookup then ⟨records, st.extra, st.lookup, st.calls⟩
    else
      let lookup := srv.Target :: st.lookup
      if !E.IsSubDomain zone srv.Target then
        let extra :=
          match E.ProxyLookup state srv.Target dns.TypeA with
          | (answer, none) => st.extra ++ answer
          | (_, some _) => st.extra
        let extra :=
          match E.ProxyLookup state srv.Target dns.TypeAAAA with
          | (answer, none) => extra ++ answer.filter (fun a => !a.isCNAME)
          | (_, some _) => extra
        ⟨records, extra, lookup, st.calls ++
          [GlueLookup.proxy srv.Target dns.TypeA, GlueLookup.proxy srv.Target dns.TypeAAAA]⟩
      else
        let state1 := state.NewWithQuestion srv.Target dns.TypeA
        match E.MiddlewareA zone state1 with
        | (addr, none) =>
          ⟨records, st.extra ++ addr, lookup, st.calls ++ [GlueLookup.inZone srv.Target]⟩
        | (_, some _) => ⟨records, st.extra, lookup, st.calls ++ [GlueLookup.inZone srv.Target]⟩
  | some (IP.v4 b) =>
    let serv : Service := { serv with Host := serv.Key }
    let srv := serv.NewSRV state.QName weight
    ⟨st.records ++ [RR.SRV srv], st.extra ++ [serv.NewA srv.Target (IP.v4 b)], st.lookup,
      st.calls⟩
  | some (IP.v6 b) =>
    let serv : Service := { serv with Host := serv.Key }
    let srv := serv.NewSRV state.QName weight
    ⟨st.records ++ [RR.SRV srv], st.extra ++ [serv.NewAAAA srv.Target (IP.v6 b)], st.lookup,
      st.calls⟩

/-- The loop state of `SRV` after the services `svcs`, from the empty state. -/
def SRVrun (E : Env) (zone : String) (state : Request) (svcs : List Service) : SRVstate :=
  svcs.foldl (SRVserv E zone state (SRVweights (fun _ => none) svcs)) ⟨[], [], [], []⟩

/-- The glue record for a service whose `Host` is the address `ip`: an A or
AAAA record, by address family, owned by the service's `Key`. -/
def addressGlue (serv : Service) (ip : IP) : RR :=
  match ip with
  | IP.v4 b => RR.A serv.Key serv.TTL (IP.v4 b)
  | IP.v6 b => RR.AAAA serv.Key serv.TTL (IP.v6 b)

/-- The collaborators `E` with a registry that returns the services `svcs`
for every name, ungrouped. -/
def Env.withServices (E : Env) (svcs : List Service) : Env :=
  { E with Records := fun _ _ => (svcs, none), Group := fun sx => sx }

/-- The records one service entry `serv` can contribute to the result of the
call `AAAA` for `state` with chain `previousRecords`: nothing; the AAAA
record of an IPv6 host; the CNAME for a name host, followed by the records the
recursive call for its target returned, of which there is at least one; or, the
recursive call having returned an error, the CNAME followed by the answer
records of the external resolver, whatever their number. -/
def AAAApart (E : Env) (zone : String) (state : Request) (previousRecords : List RR)
    (serv : Service) (part : List RR) : Prop :=
  part = [] ∨
  (∃ b, E.ParseIP serv.Host = some (IP.v6 b) ∧ part = [serv.NewAAAA state.QName (IP.v6 b)]) ∨
  (∃ nextRecords, nextRecords ≠ [] ∧
    AAAA E zone (state.NewWithQuestion serv.Host state.QType)
      (previousRecords ++ [RR.CNAME (serv.NewCNAME state.QName serv.Host)]) =
        some (nextRecords, none) ∧
    part = RR.CNAME (serv.NewCNAME state.QName serv.Host) :: nextRecords) ∨
  (∃ answer x e,
    AAAA E zone (state.NewWithQuestion serv.Host state.QType)
      (previousRecords ++ [RR.CNAME (serv.NewCNAME state.QName serv.Host)]) =
        some (x, some e) ∧
    E.ProxyLookup state (serv.NewCNAME state.QName serv.Host).Target state.QType =
      (answer, none) ∧
    part = RR.CNAME (serv.NewCNAME state.QName serv.Host) :: answer)

/-! ## Example collaborators and registries -/

/-- A registry in which `n0.` points to `n1.`, ..., `n7.` to `n8.`, and `n8.`
has an IPv6 address. -/
def chainRegistry (name : String) : List Service :=
  if name = "n0." then [⟨"n1.", "", 0, 0, 0, 60⟩]
  else if name = "n1." then [⟨"n2.", "", 0, 0, 0, 60⟩]
  else if name = "n2." then [⟨"n3.", "", 0, 0, 0, 60⟩]
  else if name = "n3." then [⟨"n4.", "", 0, 0, 0, 60⟩]
  else if name = "n4." then [⟨"n5.", "", 0, 0, 0, 60⟩]
  else if name = "n5." then [⟨"n6.", "", 0, 0, 0, 60⟩]
  else if name = "n6." then [⟨"n7.", "", 0, 0, 0, 60⟩]
  else if name = "n7." then [⟨"n8.", "", 0, 0, 0, 60⟩]
  else if name = "n8." then [⟨"2a01:7e00::1", "", 0, 0, 0, 60⟩]
  else []

/-- Address bytes of `2a01:7e00::1`. -/
def ip6Example : IP := IP.v6 [42, 1, 126, 0, 0, 0, 0, 0, 0, 0, 0, 0, 0, 0, 0, 1]

/-- Address bytes of `139.162.196.78`. -/
def ip4Example : IP := IP.v4 [139, 162, 196, 78]

/-- Collaborators for the examples: the addresses `2a01:7e00::1` and
`139.162.196.78` parse, names ending in a dot are fully qualified, a name
matches itself, the resolver and the in-zone lookup fail. -/
def exampleEnv (reg : String → List Service × Option Err) : Env where
  Records := fun name _ => reg name
  Group := fun sx => sx
  ParseIP := fun s =>
    if s = "2a01:7e00::1" then some ip6Example
    else if s = "139.162.196.78" then some ip4Example
    else none
  IPString := fun ip =>
    if ip = ip4Example then "139.162.196.78"
    else if ip = ip6Example then "2a01:7e00::1"
    else ""
  Fqdn := fun s => if s.back = '.' then s else s ++ "."
  Matches := fun n child => decide (n = child)
  IsSubDomain := fun parent child => decide (parent = child)
  ProxyLookup := fun _ _ _ => ([], some "unreachable")
  MiddlewareA := fun _ _ => ([], some "no data")
  ExtractAddressFromReverse := fun s =>
    if s = "78.196.162.139.in-addr.arpa." then "139.162.196.78" else ""

/-- The nine-name chain registry as collaborators. -/
def chainEnv : Env := exampleEnv (fun name => (chainRegistry name, none))

/-- Registry of the end-to-end example: `www.miek.nl.` points to the name
`cname-target`, which has the address `2a01:7e00::1`. -/
def cnameRegistry (name : String) : List Service × Option Err :=
  if name = "www.miek.nl." then ([⟨"cname-target", "", 0, 0, 0, 300⟩], none)
  else if name = "cname-target" then ([⟨"2a01:7e00::1", "", 0, 0, 0, 120⟩], none)
  else ([], none)

/-- Registry with IPv4 hosts only for `v4.miek.nl.`. -/
def v4Registry (name : String) : List Service × Option Err :=
  if name = "v4.miek.nl." then
    ([⟨"139.162.196.78", "a", 0, 0, 0, 300⟩, ⟨"139.162.196.78", "b", 0, 0, 0, 300⟩], none)
  else ([], none)

/-- Registry in which `self.miek.nl.` lists itself as a host, next to an
IPv6 address. -/
def selfRegistry (name : String) : List Service × Option Err :=
  if name = "self.miek.nl." then
    ([⟨"self.miek.nl.", "", 0, 0, 0, 300⟩, ⟨"2a01:7e00::1", "", 0, 0, 0, 300⟩], none)
  else ([], none)

/-- Registry with two services of priority 10 and weights 30 and 70. -/
def srvRegistry (name : String) : List Service × Option Err :=
  if name = "_http._tcp.miek.nl." then
    ([⟨"139.162.196.78", "a.miek.nl.", 80, 10, 30, 300⟩,
      ⟨"b.miek.nl.", "b.miek.nl.", 80, 10, 70, 300⟩], none)
  else ([], none)

/-- Registry holding two name servers with IPv4 addresses under
`ns.dns.miek.nl.`. -/
def nsRegistry (name : String) : List Service × Option Err :=
  if name = "ns.dns.miek.nl." then
    ([⟨"139.162.196.78", "a.ns.dns.miek.nl.", 0, 0, 0, 300⟩,
      ⟨"139.162.196.78", "b.ns.dns.miek.nl.", 0, 0, 0, 600⟩], none)
  else ([], none)

/-- Registry whose entries under `ns.dns.miek.nl.` are an address followed by
a name. -/
def nsNameRegistry (name : String) : List Service × Option Err :=
  if name = "ns.dns.miek.nl." then
    ([⟨"139.162.196.78", "a.ns.dns.miek.nl.", 0, 0, 0, 300⟩,
      ⟨"ns1.example.org.", "b.ns.dns.miek.nl.", 0, 0, 0, 600⟩], none)
  else ([], none)

/-- Registry whose lookups fail. -/
def failingRegistry (_name : String) : List Service × Option Err :=
  ([], some "registry unavailable")

/-- Registry without entries. -/
def emptyRegistry (_name : String) : List Service × Option Err :=
  ([], none)

/-- Registry of the reverse-lookup example: one service with host
`139.162.196.78` and key `a.delegated.miek.nl.`. -/
def ptrRegistry (name : String) : List Service × Option Err :=
  if name = "78.196.162.139.in-addr.arpa." then
    ([⟨"139.162.196.78", "a.delegated.miek.nl.", 0, 0, 0, 1800⟩], none)
  else ([], none)

/-- Registry in which two services of `_http._tcp.miek.nl.` name the same
target `b.example.org.`. -/
def dupRegistry (name : String) : List Service × Option Err :=
  if name = "_http._tcp.miek.nl." then
    ([⟨"b.example.org.", "x", 80, 10, 0, 300⟩, ⟨"b.example.org.", "y", 8080, 10, 0, 300⟩], none)
  else ([], none)

/-- Registry in which `www.miek.nl.` points to the name `ext.example.org.`
and lookups of other names fail. -/
def extRegistry (name : String) : List Service × Option Err :=
  if name = "www.miek.nl." then ([⟨"ext.example.org.", "", 0, 0, 0, 300⟩], none)
  else ([], some "not found")

/-- Registry in which `www.miek.nl.` has the name `ext.example.org.` and the
address `2a01:7e00::1` as hosts, and lookups of other names fail. -/
def extAddrRegistry (name : String) : List Service × Option Err :=
  if name = "www.miek.nl." then
    ([⟨"ext.example.org.", "", 0, 0, 0, 300⟩, ⟨"2a01:7e00::1", "", 0, 0, 0, 300⟩], none)
  else ([], some "not found")

/-- The example collaborators with an external resolver that answers without
error and without records (no data). -/
def nodataEnv (reg : String → List Service × Option Err) : Env :=
  { exampleEnv reg with ProxyLookup := fun _ _ _ => ([], none) }

/-- Registry with a cycle: `a.` points to `b.` and `b.` points to `a.`. -/
def cycleRegistry (name : String) : List Service × Option Err :=
  if name = "a." then ([⟨"b.", "", 0, 0, 0, 60⟩], none)
  else if name = "b." then ([⟨"a.", "", 0, 0, 0, 60⟩], none)
  else ([], none)

/-- Registry with an endless chain of fresh names: every name points to the
name one label longer. -/
def endlessRegistry (name : String) : List Service × Option Err :=
  ([⟨"x." ++ name, "", 0, 0, 0, 60⟩], none)

/-! ## Recursion of `AAAA` -/

theorem AAAAserv_congr (E : Env) (zone : String)
    (recur recur' : Request → List RR → Option (List RR × Option Err))
    (state : Request) (prev acc : List RR) (serv : Service)
    (h : ∀ st c, c.length = prev.length + 1 → c.length ≤ 8 → recur st c = recur' st c) :
    AAAAserv E zone recur state prev acc serv = AAAAserv E zone recur' state prev acc serv := by
  unfold AAAAserv
  by_cases hlen : prev.length > 7
  · simp [hlen]
  · have hrec := h (state.NewWithQuestion serv.Host state.QType)
      (prev ++ [RR.CNAME (serv.NewCNAME state.QName serv.Host)])
      (by simp) (by simp; omega)
    simp only [hrec]

theorem AAAAloop_congr (E : Env) (zone : String)
    (recur recur' : Request → List RR → Option (List RR × Option Err))
    (state : Request) (prev : List RR)
    (h : ∀ st c, c.length = prev.length + 1 → c.length ≤ 8 → recur st c = recur' st c)
    (svcs : List Service) (acc : List RR) :
    AAAAloop E zone recur state prev acc svcs = AAAAloop E zone recur' state prev acc svcs := by
  induction svcs generalizing acc with
  | nil => rfl
  | cons serv rest ih =>
    simp only [AAAAloop, AAAAserv_congr E zone recur recur' state prev acc serv h]
    cases AAAAserv E zone recur' state prev acc serv with
    | none => rfl
    | some acc1 => exact ih acc1

theorem AAAAbody_congr (E : Env) (zone : String)
    (recur recur' : Request → List RR → Option (List RR × Option Err))
    (state : Request) (prev : List RR)
    (h : ∀ st c, c.length = prev.length + 1 → c.length ≤ 8 → recur st c = recur' st c) :
    AAAAbody E zone recur state prev = AAAAbody E zone recur' state prev := by
  unfold AAAAbody
  simp only [AAAAloop_congr E zone recur recur' state prev h]

/-- With enough fuel the result of `AAAAfuel` no longer depends on the fuel. -/
theorem AAAAfuel_stable (E : Env) (zone : String) (n : Nat) :
    ∀ (m : Nat) (state : Request) (prev : List RR), 8 - prev.length < n → 8 - prev.length < m →
      AAAAfuel E zone n state prev = AAAAfuel E zone m state prev := by
  induction n with
  | zero => intro m state prev h; omega
  | succ n ih =>
    intro m state prev hn hm
    cases m with
    | zero => omega
    | succ m =>
      simp only [AAAAfuel]
      apply AAAAbody_congr
      intro st c hc hc8
      apply ih <;> omega

theorem AAAAfuel_enough (E : Env) (zone : String) (fuel : Nat) (state : Request)
    (prev : List RR) (h : 8 - prev.length < fuel) :
    AAAAfuel E zone fuel state prev = AAAA E zone state prev :=
  AAAAfuel_stable E zone fuel _ state prev h (by omega)

theorem AAAA_unfold (E : Env) (zone : String) (state : Request) (prev : List RR) :
    AAAA E zone state prev = AAAAbody E zone (AAAA E zone) state prev := by
  show AAAAfuel E zone ((8 - prev.length) + 1) state prev = _
  simp only [AAAAfuel]
  apply AAAAbody_congr
  intro st c hc hc8
  apply AAAAfuel_enough
  omega

theorem AAAAserv_returns (E : Env) (zone : String)
    (recur : Request → List RR → Option (List RR × Option Err))
    (state : Request) (prev acc : List RR) (serv : Service)
    (h : ∀ st c, c.length = prev.length + 1 → c.length ≤ 8 → ∃ r, recur st c = some r) :
    ∃ acc1, AAAAserv E zone recur state prev acc serv = some acc1 := by
  unfold AAAAserv
  by_cases hlen : prev.length > 7
  · simp only [hlen]
    split <;> (try split) <;> simp
  · obtain ⟨r, hr⟩ := h (state.NewWithQuestion serv.Host state.QType)
      (prev ++ [RR.CNAME (serv.NewCNAME state.QName serv.Host)])
      (by simp) (by simp; omega)
    simp only [hr, hlen]
    obtain ⟨next, err⟩ := r
    cases err <;> (repeat' split) <;> simp_all

theorem AAAAloop_returns (E : Env) (zone : String)
    (recur : Request → List RR → Option (List RR × Option Err))
    (state : Request) (prev : List RR)
    (h : ∀ st c, c.length = prev.length + 1 → c.length ≤ 8 → ∃ r, recur st c = some r)
    (svcs : List Service) (acc : List RR) :
    ∃ rs, AAAAloop E zone recur state prev acc svcs = some rs := by
  induction svcs generalizing acc with
  | nil => exact ⟨acc, rfl⟩
  | cons serv rest ih =>
    obtain ⟨acc1, h1⟩ := AAAAserv_returns E zone recur state prev acc serv h
    simp only [AAAAloop, h1]
    exact ih acc1

theorem AAAAbody_returns (E : Env) (zone : String)
    (recur : Request → List RR → Option (List RR × Option Err))
    (state : Request) (prev : List RR)
    (h : ∀ st c, c.length = prev.length + 1 → c.length ≤ 8 → ∃ r, recur st c = some r) :
    ∃ r, AAAAbody E zone recur state prev = some r := by
  unfold AAAAbody
  rcases hreg : records E state false with ⟨services, _ | err⟩
  · obtain ⟨rs, hrs⟩ := AAAAloop_returns E zone recur state prev h services []
    simp [hrs]
  · simp

/-- The call `AAAA` returns for every registry, query and chain. -/
theorem AAAA_returns (E : Env) (zone : String) :
    ∀ (n : Nat) (state : Request) (prev : List RR), 8 - prev.length = n →
      ∃ r, AAAA E zone state prev = some r := by
  intro n
  induction n with
  | zero =>
    intro state prev hn
    rw [AAAA_unfold]
    apply AAAAbody_returns
    intro st c hc hc8
    rw [AAAA_unfold]
    apply AAAAbody_returns
    intro st2 c2 hc2 hc28
    omega
  | succ n ih =>
    intro state prev hn
    rw [AAAA_unfold]
    apply AAAAbody_returns
    intro st c hc hc8
    apply ih
    omega

/-- C1 (as amended): a call of `AAAA` with chain `prev` hands to its recursive
calls only chains one record longer than `prev`, and only chains of at most 8
records (its result is the same whatever recursive calls on other chains would
give); the call returns, with at most `8 - prev.length` recursive calls nested
below it, so from the empty chain no chain grows beyond 8 records; a name host
met when the chain holds more than 7 records is skipped, leaving the records
unchanged, and such a call returns without error whenever the registry lookup
succeeds. -/
theorem AAAA_chain_bound (E : Env) (zone : String) (state : Request) (prev : List RR) :
    (∀ recur recur' : Request → List RR → Option (List RR × Option Err),
      (∀ st c, c.length = prev.length + 1 → c.length ≤ 8 → recur st c = recur' st c) →
        AAAAbody E zone recur state prev = AAAAbody E zone recur' state prev) ∧
    (∃ r, AAAAfuel E zone ((8 - prev.length) + 1) state prev = some r ∧
      ∀ fuel, 8 - prev.length < fuel → AAAAfuel E zone fuel state prev = some r) ∧
    (∀ (recur : Request → List RR → Option (List RR × Option Err)) (acc : List RR)
      (serv : Service), 7 < prev.length → E.ParseIP serv.Host = none →
        AAAAserv E zone recur state prev acc serv = some acc) ∧
    (∀ svcs, 7 < prev.length → records E state false = (svcs, none) →
      ∃ rs, AAAA E zone state prev = some (rs, none)) := by
  refine ⟨fun recur recur' h => AAAAbody_congr E zone recur recur' state prev h, ?_, ?_, ?_⟩
  · obtain ⟨r, hr⟩ := AAAA_returns E zone _ state prev rfl
    exact ⟨r, hr, fun fuel hf => (AAAAfuel_enough E zone fuel state prev hf).trans hr⟩
  · intro recur acc serv hlen hname
    unfold AAAAserv
    simp [hname, hlen]
  · intro svcs hlen hreg
    obtain ⟨r, hr⟩ := AAAA_returns E zone _ state prev rfl
    rw [AAAA_unfold] at hr ⊢
    unfold AAAAbody at hr ⊢
    simp only [hreg] at hr ⊢
    cases hl : AAAAloop E zone (AAAA E zone) state prev [] svcs with
    | none => simp [hl] at hr
    | some rs => exact ⟨rs, rfl⟩

/-- C1 (as stated, refuted): from the empty chain, the registry `n0. -> n1. ->
... -> n8.` yields a chain of 8 synthesized CNAME records, more than 7, and
the call does not complete within 7 nested recursive calls; the innermost
call is made with a chain of 8 records and returns the AAAA record; and the
call with the 7-record chain uses the answer of a recursive call that returns
only on chains of more than 7 records. -/
theorem AAAA_chain_of_eight :
    AAAA chainEnv "cluster.local." ⟨"n0.", 28⟩ [] =
      some ([RR.CNAME ⟨"n0.", 60, "n1."⟩, RR.CNAME ⟨"n1.", 60, "n2."⟩,
        RR.CNAME ⟨"n2.", 60, "n3."⟩, RR.CNAME ⟨"n3.", 60, "n4."⟩,
        RR.CNAME ⟨"n4.", 60, "n5."⟩, RR.CNAME ⟨"n5.", 60, "n6."⟩,
        RR.CNAME ⟨"n6.", 60, "n7."⟩, RR.CNAME ⟨"n7.", 60, "n8."⟩,
        RR.AAAA "n8." 60 ip6Example], none) ∧
    AAAAfuel chainEnv "cluster.local." 8 ⟨"n0.", 28⟩ [] = none ∧
    AAAAfuel chainEnv "cluster.local." 1 ⟨"n8.", 28⟩
      [RR.CNAME ⟨"n0.", 60, "n1."⟩, RR.CNAME ⟨"n1.", 60, "n2."⟩,
        RR.CNAME ⟨"n2.", 60, "n3."⟩, RR.CNAME ⟨"n3.", 60, "n4."⟩,
        RR.CNAME ⟨"n4.", 60, "n5."⟩, RR.CNAME ⟨"n5.", 60, "n6."⟩,
        RR.CNAME ⟨"n6.", 60, "n7."⟩, RR.CNAME ⟨"n7.", 60, "n8."⟩] =
      some ([RR.AAAA "n8." 60 ip6Example], none) ∧
    AAAAbody chainEnv "cluster.local."
      (fun _ c => if c.length ≤ 7 then none else some ([RR.AAAA "probe." 0 ip6Example], none))
      ⟨"n7.", 28⟩
      [RR.CNAME ⟨"n0.", 60, "n1."⟩, RR.CNAME ⟨"n1.", 60, "n2."⟩,
        RR.CNAME ⟨"n2.", 60, "n3."⟩, RR.CNAME ⟨"n3.", 60, "n4."⟩,
        RR.CNAME ⟨"n4.", 60, "n5."⟩, RR.CNAME ⟨"n5.", 60, "n6."⟩,
        RR.CNAME ⟨"n6.", 60, "n7."⟩] =
      some ([RR.CNAME ⟨"n7.", 60, "n8."⟩, RR.AAAA "probe." 0 ip6Example], none) := by
  refine ⟨?_, ?_, ?_, ?_⟩ <;> decide

/-! ## IPv4 hosts in `AAAA` -/

theorem AAAAloop_v4 (E : Env) (zone : String)
    (recur : Request → List RR → Option (List RR × Option Err))
    (state : Request) (prev : List RR) (svcs : List Service) (acc : List RR)
    (h : ∀ s ∈ svcs, ∃ b, E.ParseIP s.Host = some (IP.v4 b)) :
    AAAAloop E zone recur state prev acc svcs = some acc := by
  induction svcs with
  | nil => rfl
  | cons serv rest ih =>
    obtain ⟨b, hb⟩ := h serv (List.mem_cons_self _ _)
    have hs : AAAAserv E zone recur state prev acc serv = some acc := by
      unfold AAAAserv; simp [hb]
    simp only [AAAAloop, hs]
    exact ih (fun s hs => h s (List.mem_cons_of_mem _ hs))

theorem AAAAloop_filter (E : Env) (zone : String)
    (recur : Request → List RR → Option (List RR × Option Err))
    (state : Request) (prev : List RR) (keep : Service → Bool)
    (h : ∀ s, keep s = false → ∃ b, E.ParseIP s.Host = some (IP.v4 b))
    (svcs : List Service) (acc : List RR) :
    AAAAloop E zone recur state prev acc (svcs.filter keep) =
      AAAAloop E zone recur state prev acc svcs := by
  induction svcs generalizing acc with
  | nil => rfl
  | cons serv rest ih =>
    cases hk : keep serv with
    | true =>
      simp only [List.filter_cons_of_pos hk, AAAAloop]
      cases AAAAserv E zone recur state prev acc serv with
      | none => rfl
      | some acc1 => exact ih acc1
    | false =>
      obtain ⟨b, hb⟩ := h serv hk
      have hs : AAAAserv E zone recur state prev acc serv = some acc := by
        unfold AAAAserv; simp [hb]
      have hk' : ¬ (keep serv = true) := by simp [hk]
      simp only [List.filter_cons_of_neg hk', AAAAloop, hs]
      exact ih acc

theorem AAAAloop_dropServices (E : Env) (zone : String) (keep : Service → Bool)
    (recur : Request → List RR → Option (List RR × Option Err))
    (state : Request) (prev : List RR) (svcs : List Service) (acc : List RR) :
    AAAAloop (E.dropServices keep) zone recur state prev acc svcs =
      AAAAloop E zone recur state prev acc svcs := by
  induction svcs generalizing acc with
  | nil => rfl
  | cons serv rest ih =>
    have hs : AAAAserv (E.dropServices keep) zone recur state prev acc serv =
        AAAAserv E zone recur state prev acc serv := rfl
    simp only [AAAAloop, hs]
    cases AAAAserv E zone recur state prev acc serv with
    | none => rfl
    | some acc1 => exact ih acc1

theorem AAAAbody_dropServices (E : Env) (zone : String) (keep : Service → Bool)
    (h : ∀ s, keep s = false → ∃ b, E.ParseIP s.Host = some (IP.v4 b))
    (recur : Request → List RR → Option (List RR × Option Err))
    (state : Request) (prev : List RR) :
    AAAAbody (E.dropServices keep) zone recur state prev = AAAAbody E zone recur state prev := by
  unfold AAAAbody records
  have hR : (E.dropServices keep).Records = E.Records := rfl
  have hG : (E.dropServices keep).Group = fun sx => (E.Group sx).filter keep := rfl
  rw [hR, hG]
  rcases E.Records state.Name false with ⟨services, _ | err⟩
  · simp only [AAAAloop_dropServices,
      AAAAloop_filter E zone recur state prev keep h (E.Group services) []]
  · rfl

theorem AAAAfuel_dropServices (E : Env) (zone : String) (keep : Service → Bool)
    (h : ∀ s, keep s = false → ∃ b, E.ParseIP s.Host = some (IP.v4 b)) (n : Nat) :
    AAAAfuel (E.dropServices keep) zone n = AAAAfuel E zone n := by
  induction n with
  | zero => rfl
  | succ n ih =>
    funext state prev
    simp only [AAAAfuel, ih]
    exact AAAAbody_dropServices E zone keep h _ state prev

/-- C8: a service whose `Host` parses as an IPv4 address contributes nothing to
`AAAA`: when every service the lookup returns has an IPv4 host, `AAAA` returns
the empty list and no error, and removing IPv4-host services from the lists
the lookup returns never changes what `AAAA` returns. -/
theorem AAAA_ipv4_contributes_nothing (E : Env) (zone : String) (state : Request)
    (prev : List RR) :
    (∀ svcs, records E state false = (svcs, none) →
      (∀ s ∈ svcs, ∃ b, E.ParseIP s.Host = some (IP.v4 b)) →
        AAAA E zone state prev = some ([], none)) ∧
    (∀ keep : Service → Bool, (∀ s, keep s = false → ∃ b, E.ParseIP s.Host = some (IP.v4 b)) →
      AAAA (E.dropServices keep) zone state prev = AAAA E zone state prev) := by
  constructor
  · intro svcs hreg hv4
    rw [AAAA_unfold]
    unfold AAAAbody
    simp only [hreg, AAAAloop_v4 E zone (AAAA E zone) state prev svcs [] hv4]
  · intro keep h
    unfold AAAA
    rw [AAAAfuel_dropServices E zone keep h]

/-- C8 at a concrete registry: two services with host `139.162.196.78` give
no AAAA record, with or without them in the list. -/
theorem AAAA_ipv4_contributes_nothing_witness :
    AAAA (exampleEnv v4Registry) "miek.nl." ⟨"v4.miek.nl.", 28⟩ [] = some ([], none) ∧
    AAAA ((exampleEnv v4Registry).dropServices (fun s => decide (s.Host ≠ "139.162.196.78")))
      "miek.nl." ⟨"v4.miek.nl.", 28⟩ [] =
      AAAA (exampleEnv v4Registry) "miek.nl." ⟨"v4.miek.nl.", 28⟩ [] :=
  ⟨(AAAA_ipv4_contributes_nothing (exampleEnv v4Registry) "miek.nl." ⟨"v4.miek.nl.", 28⟩ []).1
      [⟨"139.162.196.78", "a", 0, 0, 0, 300⟩, ⟨"139.162.196.78", "b", 0, 0, 0, 300⟩] rfl
      (by
        intro s hs
        simp only [List.mem_cons, List.mem_singleton, List.not_mem_nil, or_false] at hs
        rcases hs with rfl | rfl <;> exact ⟨[139, 162, 196, 78], rfl⟩),
    (AAAA_ipv4_contributes_nothing (exampleEnv v4Registry) "miek.nl." ⟨"v4.miek.nl.", 28⟩ []).2
      _ (by
        intro s hs
        have hh : s.Host = "139.162.196.78" := by simpa using hs
        exact ⟨[139, 162, 196, 78], by simp [exampleEnv, hh, ip4Example]⟩)⟩

/-! ## End-to-end `AAAA` through one CNAME -/

/-- C9: when the only service of the query name has a name host `T` that does
not match the query name, and the only service of `T` has an IPv6 host, `AAAA`
from the empty chain returns the CNAME from the query name to `T` followed by
the AAAA record of `T`, and no error. -/
theorem AAAA_cname_then_address (E : Env) (zone : String) (state : Request)
    (s1 s2 : Service) (b : List Nat)
    (h1 : records E state false = ([s1], none))
    (hname : E.ParseIP s1.Host = none)
    (hself : E.Matches state.Name (E.Fqdn s1.Host) = false)
    (h2 : records E (state.NewWithQuestion s1.Host state.QType) false = ([s2], none))
    (hv6 : E.ParseIP s2.Host = some (IP.v6 b)) :
    AAAA E zone state [] =
      some ([RR.CNAME ⟨state.qname, s1.TTL, s1.Host⟩, RR.AAAA s1.Host s2.TTL (IP.v6 b)], none) := by
  have hinner : AAAA E zone (state.NewWithQuestion s1.Host state.QType)
      ([] ++ [RR.CNAME (s1.NewCNAME state.QName s1.Host)]) =
      some ([RR.AAAA s1.Host s2.TTL (IP.v6 b)], none) := by
    rw [AAAA_unfold]
    unfold AAAAbody
    simp only [h2, AAAAloop, AAAAserv, hv6]
    rfl
  rw [AAAA_unfold]
  unfold AAAAbody
  simp only [h1, AAAAloop, AAAAserv, hname, hself, hinner]
  simp [DuplicateCNAME, Service.NewCNAME, Request.QName]

/-- C9 at the registry of the example: `www.miek.nl.` has host `cname-target`,
which has host `2a01:7e00::1`. -/
theorem AAAA_cname_then_address_witness :
    AAAA (exampleEnv cnameRegistry) "miek.nl." ⟨"www.miek.nl.", 28⟩ [] =
      some ([RR.CNAME ⟨"www.miek.nl.", 300, "cname-target"⟩,
        RR.AAAA "cname-target" 120 ip6Example], none) :=
  AAAA_cname_then_address (exampleEnv cnameRegistry) "miek.nl." ⟨"www.miek.nl.", 28⟩
    ⟨"cname-target", "", 0, 0, 0, 300⟩ ⟨"2a01:7e00::1", "", 0, 0, 0, 120⟩
    [42, 1, 126, 0, 0, 0, 0, 0, 0, 0, 0, 0, 0, 0, 0, 1]
    (by decide) (by decide) (by decide) (by decide) (by decide)

/-! ## No self-loop CNAME -/

theorem NoSelfLoop_append (xs ys : List RR) (hx : NoSelfLoop xs) (hy : NoSelfLoop ys) :
    NoSelfLoop (xs ++ ys) := by
  intro v hv
  rcases List.mem_append.mp hv with h | h
  · exact hx v h
  · exact hy v h

theorem DuplicateCNAME_of_mem (r v : dns.CNAME) (prev : List RR) (hv : RR.CNAME v ∈ prev)
    (ht : v.Target = r.Target) : DuplicateCNAME r prev = true := by
  unfold DuplicateCNAME
  rw [List.any_eq_true]
  exact ⟨RR.CNAME v, hv, by simp [ht]⟩

theorem AAAAserv_no_self_loop (E : Env) (zone : String)
    (hrefl : ∀ n, E.Matches n n = true)
    (hproxy : ∀ st n t ans, E.ProxyLookup st n t = (ans, none) → NoSelfLoop ans)
    (recur : Request → List RR → Option (List RR × Option Err))
    (state : Request) (prev : List RR)
    (hrec : ∀ st c rs err, (∃ v, RR.CNAME v ∈ c ∧ v.Target = st.qname) →
      recur st c = some (rs, err) → NoSelfLoop rs)
    (hinv : E.Fqdn state.qname = state.qname ∨ ∃ v, RR.CNAME v ∈ prev ∧ v.Target = state.qname)
    (acc acc1 : List RR) (serv : Service) (hacc : NoSelfLoop acc)
    (h : AAAAserv E zone recur state prev acc serv = some acc1) : NoSelfLoop acc1 := by
  have hnew : E.Matches state.Name (E.Fqdn serv.Host) = false →
      DuplicateCNAME (serv.NewCNAME state.QName serv.Host) prev = false →
      NoSelfLoop [RR.CNAME (serv.NewCNAME state.QName serv.Host)] := by
    intro hm hd v hv
    simp only [List.mem_singleton, RR.CNAME.injEq] at hv
    subst hv
    simp only [Service.NewCNAME, Request.QName]
    intro heq
    rcases hinv with hfq | ⟨u, hu, hut⟩
    · rw [heq, hfq, Request.Name, hrefl] at hm
      exact absurd hm (by simp)
    · rw [DuplicateCNAME_of_mem _ u prev hu (by simp [Service.NewCNAME, hut, heq])] at hd
      exact absurd hd (by simp)
  unfold AAAAserv at h
  dsimp only at h
  split at h
  · split at h
    · simp only [Option.some.injEq] at h; subst h; exact hacc
    · rename_i hm
      simp only [Bool.not_eq_true] at hm
      split at h
      · simp only [Option.some.injEq] at h; subst h; exact hacc
      · split at h
        · simp only [Option.some.injEq] at h; subst h; exact hacc
        · rename_i hd
          simp only [Bool.not_eq_true] at hd
          split at h
          · simp at h
          · rename_i next hr
            have hnext : NoSelfLoop next := hrec _ _ _ _
              ⟨serv.NewCNAME state.QName serv.Host, by simp, rfl⟩ hr
            split at h
            · simp only [Option.some.injEq] at h; subst h
              exact NoSelfLoop_append _ _ (NoSelfLoop_append _ _ hacc (hnew hm hd)) hnext
            · simp only [Option.some.injEq] at h; subst h; exact hacc
          · split at h
            · simp only [Option.some.injEq] at h; subst h; exact hacc
            · split at h
              · simp only [Option.some.injEq] at h; subst h; exact hacc
              · rename_i ans hp
                simp only [Option.some.injEq] at h; subst h
                exact NoSelfLoop_append _ _ (NoSelfLoop_append _ _ hacc (hnew hm hd))
                  (hproxy _ _ _ _ hp)
  · simp only [Option.some.injEq] at h; subst h; exact hacc
  · simp only [Option.some.injEq] at h; subst h
    refine NoSelfLoop_append _ _ hacc ?_
    intro v hv
    simp [Service.NewAAAA] at hv

theorem AAAAloop_no_self_loop (E : Env) (zone : String)
    (hrefl : ∀ n, E.Matches n n = true)
    (hproxy : ∀ st n t ans, E.ProxyLookup st n t = (ans, none) → NoSelfLoop ans)
    (recur : Request → List RR → Option (List RR × Option Err))
    (state : Request) (prev : List RR)
    (hrec : ∀ st c rs err, (∃ v, RR.CNAME v ∈ c ∧ v.Target = st.qname) →
      recur st c = some (rs, err) → NoSelfLoop rs)
    (hinv : E.Fqdn state.qname = state.qname ∨ ∃ v, RR.CNAME v ∈ prev ∧ v.Target = state.qname)
    (svcs : List Service) (acc rs : List RR) (hacc : NoSelfLoop acc)
    (h : AAAAloop E zone recur state prev acc svcs = some rs) : NoSelfLoop rs := by
  induction svcs generalizing acc with
  | nil =>
    simp only [AAAAloop, Option.some.injEq] at h
    subst h
    exact hacc
  | cons serv rest ih =>
    simp only [AAAAloop] at h
    cases hs : AAAAserv E zone recur state prev acc serv with
    | none => simp [hs] at h
    | some acc1 =>
      simp only [hs] at h
      exact ih acc1
        (AAAAserv_no_self_loop E zone hrefl hproxy recur state prev hrec hinv acc acc1 serv hacc hs)
        h

theorem AAAAfuel_no_self_loop (E : Env) (zone : String)
    (hrefl : ∀ n, E.Matches n n = true)
    (hproxy : ∀ st n t ans, E.ProxyLookup st n t = (ans, none) → NoSelfLoop ans) (n : Nat) :
    ∀ (state : Request) (prev rs : List RR) (err : Option Err),
      (E.Fqdn state.qname = state.qname ∨ ∃ v, RR.CNAME v ∈ prev ∧ v.Target = state.qname) →
      AAAAfuel E zone n state prev = some (rs, err) → NoSelfLoop rs := by
  induction n with
  | zero => intro state prev rs err _ h; simp [AAAAfuel] at h
  | succ n ih =>
    intro state prev rs err hinv h
    simp only [AAAAfuel, AAAAbody] at h
    rcases hreg : records E state false with ⟨services, _ | e⟩
    · simp only [hreg] at h
      cases hl : AAAAloop E zone (AAAAfuel E zone n) state prev [] services with
      | none => simp [hl] at h
      | some recs =>
        simp only [hl, Option.some.injEq, Prod.mk.injEq] at h
        obtain ⟨h1, _⟩ := h
        subst h1
        exact AAAAloop_no_self_loop E zone hrefl hproxy (AAAAfuel E zone n) state prev
          (fun st c rs err hc hr => ih st c rs err (Or.inr hc) hr) hinv services [] recs
          (fun v hv => by simp at hv) hl
    · simp only [hreg, Option.some.injEq, Prod.mk.injEq] at h
      obtain ⟨h1, _⟩ := h
      subst h1
      intro v hv
      simp at hv

/-- C10: `AAAA` never emits a self-loop CNAME.  A name host whose fully
qualified form equals the current query name is skipped; and for a fully
qualified query name, a name-matching test that accepts equal names and a
resolver whose answers hold no self-loop CNAME, `AAAA` returns a list in which
no CNAME record has a target equal to its own owner name. -/
theorem AAAA_never_emits_self_loop (E : Env) (zone : String) (state : Request)
    (prev : List RR)
    (hrefl : ∀ n, E.Matches n n = true)
    (hfq : E.Fqdn state.qname = state.qname)
    (hproxy : ∀ st n t ans, E.ProxyLookup st n t = (ans, none) → NoSelfLoop ans) :
    (∀ (recur : Request → List RR → Option (List RR × Option Err)) (acc : List RR)
      (serv : Service), E.ParseIP serv.Host = none → E.Fqdn serv.Host = state.Name →
        AAAAserv E zone recur state prev acc serv = some acc) ∧
    ∃ rs err, AAAA E zone state prev = some (rs, err) ∧ NoSelfLoop rs := by
  constructor
  · intro recur acc serv hname heq
    unfold AAAAserv
    simp [hname, heq, hrefl]
  · obtain ⟨⟨rs, err⟩, hr⟩ := AAAA_returns E zone _ state prev rfl
    exact ⟨rs, err, hr, AAAAfuel_no_self_loop E zone hrefl hproxy _ state prev rs err
      (Or.inl hfq) hr⟩

/-- C10 at a registry in which `self.miek.nl.` lists itself as a host. -/
theorem AAAA_never_emits_self_loop_witness :
    (∀ (recur : Request → List RR → Option (List RR × Option Err)) (acc : List RR)
      (serv : Service), (exampleEnv selfRegistry).ParseIP serv.Host = none →
        (exampleEnv selfRegistry).Fqdn serv.Host = "self.miek.nl." →
        AAAAserv (exampleEnv selfRegistry) "miek.nl." recur ⟨"self.miek.nl.", 28⟩ [] acc serv =
          some acc) ∧
    ∃ rs err, AAAA (exampleEnv selfRegistry) "miek.nl." ⟨"self.miek.nl.", 28⟩ [] =
      some (rs, err) ∧ NoSelfLoop rs :=
  AAAA_never_emits_self_loop (exampleEnv selfRegistry) "miek.nl." ⟨"self.miek.nl.", 28⟩ []
    (by intro n; simp [exampleEnv]) (by decide)
    (by intro st n t ans h; simp [exampleEnv] at h)

/-! ## Rounding to `float64` -/

theorem roundHalfEven_int (k : Int) : roundHalfEven (k : ℚ) = k := by
  unfold roundHalfEven
  simp

theorem binade_spec (a : ℚ) (ha : 0 < a) :
    (2 : ℚ) ^ (binade a) ≤ a ∧ a < (2 : ℚ) ^ (binade a + 1) := by
  have hnum : 0 < a.num := Rat.num_pos.mpr ha
  have hn0 : a.num.natAbs ≠ 0 := by omega
  have hd0 : a.den ≠ 0 := a.den_nz
  have hn1 := Nat.log2_self_le hn0
  have hn2 := @Nat.lt_log2_self a.num.natAbs
  have hd1 := Nat.log2_self_le hd0
  have hd2 := @Nat.lt_log2_self a.den
  have hval : a = (a.num.natAbs : ℚ) / (a.den : ℚ) := by
    have h3 : ((a.num.natAbs : Int) : ℚ) = (a.num : ℚ) := by
      rw [Int.natAbs_of_nonneg (le_of_lt hnum)]
    rw [Int.cast_natCast] at h3
    rw [h3]
    exact (Rat.num_div_den a).symm
  have hdpos : (0 : ℚ) < (a.den : ℚ) := by exact_mod_cast Nat.pos_of_ne_zero hd0
  have hn1q : (2 : ℚ) ^ (a.num.natAbs.log2) ≤ (a.num.natAbs : ℚ) := by exact_mod_cast hn1
  have hn2q : (a.num.natAbs : ℚ) < (2 : ℚ) ^ (a.num.natAbs.log2 + 1) := by exact_mod_cast hn2
  have hd1q : (2 : ℚ) ^ (a.den.log2) ≤ (a.den : ℚ) := by exact_mod_cast hd1
  have hd2q : (a.den : ℚ) < (2 : ℚ) ^ (a.den.log2 + 1) := by exact_mod_cast hd2
  have hup : a < (2 : ℚ) ^ ((a.num.natAbs.log2 : Int) - (a.den.log2 : Int) + 1) := by
    conv_lhs => rw [hval]
    rw [div_lt_iff₀ hdpos]
    have : (2 : ℚ) ^ ((a.num.natAbs.log2 : Int) - (a.den.log2 : Int) + 1) =
        (2 : ℚ) ^ (a.num.natAbs.log2 + 1) / (2 : ℚ) ^ (a.den.log2) := by
      rw [← zpow_natCast, ← zpow_natCast, ← zpow_sub₀ (by norm_num)]
      congr 1
      push_cast
      ring
    rw [this, div_mul_eq_mul_div, lt_div_iff₀ (by positivity)]
    calc (a.num.natAbs : ℚ) * (2 : ℚ) ^ (a.den.log2)
        < (2 : ℚ) ^ (a.num.natAbs.log2 + 1) * (2 : ℚ) ^ (a.den.log2) := by
          apply mul_lt_mul_of_pos_right hn2q (by positivity)
      _ ≤ (2 : ℚ) ^ (a.num.natAbs.log2 + 1) * (a.den : ℚ) := by
          apply mul_le_mul_of_nonneg_left hd1q (by positivity)
  have hlow : (2 : ℚ) ^ ((a.num.natAbs.log2 : Int) - (a.den.log2 : Int) - 1) ≤ a := by
    conv_rhs => rw [hval]
    rw [le_div_iff₀ hdpos]
    have : (2 : ℚ) ^ ((a.num.natAbs.log2 : Int) - (a.den.log2 : Int) - 1) =
        (2 : ℚ) ^ (a.num.natAbs.log2) / (2 : ℚ) ^ (a.den.log2 + 1) := by
      rw [← zpow_natCast, ← zpow_natCast, ← zpow_sub₀ (by norm_num)]
      congr 1
      push_cast
      ring
    rw [this, div_mul_eq_mul_div, div_le_iff₀ (by positivity)]
    calc (2 : ℚ) ^ (a.num.natAbs.log2) * (a.den : ℚ)
        ≤ (a.num.natAbs : ℚ) * (a.den : ℚ) := by
          apply mul_le_mul_of_nonneg_right hn1q (le_of_lt hdpos)
      _ ≤ (a.num.natAbs : ℚ) * (2 : ℚ) ^ (a.den.log2 + 1) := by
          apply mul_le_mul_of_nonneg_left (le_of_lt hd2q) (by positivity)
  unfold binade
  dsimp only
  split
  · rename_i h
    exact ⟨h, hup⟩
  · rename_i h
    refine ⟨hlow, ?_⟩
    rw [sub_add_cancel]
    exact lt_of_not_le h

theorem roundF64_int (n : Int) (h0 : 0 < n) (h53 : n < 2 ^ 53) :
    roundF64 (n : ℚ) = F64.fin (n : ℚ) := by
  have hx : (0 : ℚ) < (n : ℚ) := by exact_mod_cast h0
  obtain ⟨hb1, hb2⟩ := binade_spec (n : ℚ) hx
  have he1 : 0 ≤ binade (n : ℚ) := by
    have h1 : (2 : ℚ) ^ (0 : Int) ≤ (n : ℚ) := by
      rw [zpow_zero]
      exact_mod_cast h0
    have h := lt_of_le_of_lt h1 hb2
    have := (zpow_lt_zpow_iff_right₀ (by norm_num : (1 : ℚ) < 2)).mp h
    omega
  have hn53 : (n : ℚ) < (2 : ℚ) ^ (53 : Int) := by
    have : (n : ℚ) < ((2 ^ 53 : Int) : ℚ) := by exact_mod_cast h53
    rw [show ((53 : Int)) = ((53 : Nat) : Int) from rfl, zpow_natCast]
    exact_mod_cast this
  have he2 : binade (n : ℚ) ≤ 52 := by
    have h := lt_of_le_of_lt hb1 hn53
    have := (zpow_lt_zpow_iff_right₀ (by norm_num : (1 : ℚ) < 2)).mp h
    omega
  have hq : max (binade (n : ℚ) - 52) (-1074) = binade (n : ℚ) - 52 := max_eq_left (by omega)
  obtain ⟨k, hk⟩ : ∃ k : Nat, binade (n : ℚ) - 52 = -(k : Int) :=
    ⟨(52 - binade (n : ℚ)).toNat, by omega⟩
  have hpow : (2 : ℚ) ^ (binade (n : ℚ) - 52) = 1 / 2 ^ k := by
    rw [hk, zpow_neg, zpow_natCast, one_div]
  have hy : (n : ℚ) / (2 : ℚ) ^ (binade (n : ℚ) - 52) = (((n * 2 ^ k : Int)) : ℚ) := by
    rw [hpow]
    push_cast
    field_simp
  unfold roundF64
  rw [if_neg (ne_of_gt hx)]
  simp only [abs_of_pos hx, hq]
  rw [hy, roundHalfEven_int, if_neg, if_neg (not_lt.mpr (le_of_lt hx))]
  · congr 1
    rw [hpow]
    push_cast
    field_simp
  · rw [not_le, hpow]
    have h2 : (n : ℚ) < (2 : ℚ) ^ (1024 : Int) :=
      lt_of_lt_of_le hn53 (zpow_le_zpow_right₀ (by norm_num) (by norm_num))
    have h4 : ((n * 2 ^ k : Int) : ℚ) * (1 / 2 ^ k) = (n : ℚ) := by
      push_cast
      field_simp
    rw [h4]
    exact h2

theorem float64_int (n : Int) (h0 : 0 < n) (h53 : n < 2 ^ 53) :
    float64 n = F64.fin (n : ℚ) :=
  roundF64_int n h0 h53

theorem toUint16_floor (v : ℚ) (h0 : 0 ≤ v) (h1 : v < 65536) :
    (F64.toUint16 (F64.floor (F64.fin v)) : Int) = ⌊v⌋ := by
  have hf0 : 0 ≤ ⌊v⌋ := Int.floor_nonneg.mpr h0
  have hf1 : ⌊v⌋ < 65536 := by
    have : (⌊v⌋ : ℚ) < ((65536 : Int) : ℚ) := lt_of_le_of_lt (Int.floor_le v) (by exact_mod_cast h1)
    exact_mod_cast this
  have hq : (0 : ℚ) ≤ ((⌊v⌋ : Int) : ℚ) := by exact_mod_cast hf0
  simp only [F64.floor, F64.toUint16, hq, if_true, Int.floor_intCast, uint16]
  rw [if_pos (by constructor <;> omega)]
  omega

/-! ## Weights of `SRV` -/

theorem SRVweights_cons (w : Int → Option Int) (serv : Service) (rest : List Service) :
    SRVweights w (serv :: rest) =
      SRVweights (Function.update w serv.Priority
        (some (match w serv.Priority with
          | none => effWeight serv
          | some t => wrapInt (t + effWeight serv)))) rest := by
  simp only [SRVweights, effWeight]
  cases w serv.Priority <;> rfl

theorem SRVweights_groupTotal (svcs : List Service) (p : Int) :
    ∀ w : Int → Option Int, SRVweights w svcs p =
      groupTotal (w p) ((priorityGroup p svcs).map effWeight) := by
  induction svcs with
  | nil => intro w; simp [SRVweights, priorityGroup, groupTotal]
  | cons serv rest ih =>
    intro w
    rw [SRVweights_cons, ih]
    by_cases hp : serv.Priority = p
    · subst hp
      have hg : priorityGroup serv.Priority (serv :: rest) =
          serv :: priorityGroup serv.Priority rest := by
        simp [priorityGroup]
      rw [hg, Function.update_same, List.map_cons]
      rfl
    · have hg : priorityGroup p (serv :: rest) = priorityGroup p rest := by
        simp [priorityGroup, hp]
      rw [hg, Function.update_noteq (Ne.symm hp)]

theorem wrapInt_eq (z : Int) (h1 : -2 ^ 63 ≤ z) (h2 : z < 2 ^ 63) : wrapInt z = z := by
  unfold wrapInt
  omega

theorem groupTotal_some (es : List Int) :
    ∀ t : Int, 0 ≤ t → (∀ e ∈ es, 0 ≤ e) → t + es.sum < 2 ^ 63 →
      groupTotal (some t) es = some (t + es.sum) := by
  induction es with
  | nil => intro t _ _ _; simp [groupTotal]
  | cons e es ih =>
    intro t ht hnn hlt
    have he : 0 ≤ e := hnn e (List.mem_cons_self _ _)
    have hes : 0 ≤ es.sum := List.sum_nonneg (fun x hx => hnn x (List.mem_cons_of_mem _ hx))
    rw [List.sum_cons] at hlt
    show groupTotal (some (wrapInt (t + e))) es = _
    rw [wrapInt_eq (t + e) (by omega) (by omega),
      ih (t + e) (by omega) (fun x hx => hnn x (List.mem_cons_of_mem _ hx)) (by omega),
      List.sum_cons, add_assoc]

theorem groupTotal_none (es : List Int) (hne : es ≠ []) (hnn : ∀ e ∈ es, 0 ≤ e)
    (hlt : es.sum < 2 ^ 63) : groupTotal none es = some es.sum := by
  cases es with
  | nil => exact absurd rfl hne
  | cons e es =>
    show groupTotal (some e) es = _
    rw [List.sum_cons] at hlt
    rw [groupTotal_some es e (hnn e (List.mem_cons_self _ _))
      (fun x hx => hnn x (List.mem_cons_of_mem _ hx)) hlt, List.sum_cons]

theorem effWeight_pos (s : Service) (h : 0 ≤ s.Weight) : 1 ≤ effWeight s := by
  unfold effWeight
  split <;> omega

/-- Without overflow of Go's `int`, the first loop of `SRV` stores for a
priority the sum of the effective weights of its services. -/
theorem SRVweights_total (svcs : List Service) (p : Int) (hne : priorityGroup p svcs ≠ [])
    (hnn : ∀ s ∈ priorityGroup p svcs, 0 ≤ s.Weight)
    (hlt : ((priorityGroup p svcs).map effWeight).sum < 2 ^ 63) :
    SRVweights (fun _ => none) svcs p = some ((priorityGroup p svcs).map effWeight).sum := by
  rw [SRVweights_groupTotal]
  apply groupTotal_none _ (by simpa using hne) _ hlt
  intro e he
  simp only [List.mem_map] at he
  obtain ⟨s, hs, rfl⟩ := he
  have := effWeight_pos s (hnn s hs)
  omega

theorem SRVloop_records (E : Env) (zone : String) (state : Request) (w : Int → Option Int)
    (svcs : List Service) :
    ∀ records extra lookup,
      (SRVloop E zone state w records extra lookup svcs).1 =
        records ++ svcs.map (SRVrecord E state w) := by
  induction svcs with
  | nil => intro records extra lookup; simp [SRVloop]
  | cons serv rest ih =>
    intro records extra lookup
    unfold SRVloop
    dsimp only
    rcases hip : E.ParseIP serv.Host with _ | ⟨b | b⟩
    · simp only [List.map_cons, SRVrecord, hip]
      split
      · rw [ih]; simp
      · split
        · rw [ih]; simp
        · split <;> (rw [ih]; simp)
    · simp only [List.map_cons, SRVrecord, hip, ih]; simp
    · simp only [List.map_cons, SRVrecord, hip, ih]; simp

theorem SRV_records (E : Env) (zone : String) (state : Request) (svcs : List Service)
    (hreg : records E state false = (svcs, none)) :
    (SRV E zone state).1 = svcs.map (SRVrecord E state (SRVweights (fun _ => none) svcs)) := by
  unfold SRV
  simp only [hreg]
  have h := SRVloop_records E zone state (SRVweights (fun _ => none) svcs) svcs [] [] []
  simpa using h

theorem float64_100 : float64 100 = F64.fin 100 := by
  have h := float64_int 100 (by norm_num) (by norm_num)
  simpa using h

/-- The computation of `SRVweight` for a positive group total and a
non-negative weight, both below 2^53: the quotient `100/T` rounded, times the
effective weight, rounded, floored. -/
theorem SRVweight_eq (w : Int → Option Int) (serv : Service) (T : Int)
    (hw : w serv.Priority = some T) (hT0 : 0 < T) (hT : T < 2 ^ 53)
    (he0 : 0 ≤ serv.Weight) (he : serv.Weight < 2 ^ 53) :
    SRVweight w serv =
      F64.toUint16 (F64.floor (F64.mul (roundF64 (100 / (T : ℚ)))
        (F64.fin (effWeight serv : ℚ)))) := by
  have hTq : (T : ℚ) ≠ 0 := by exact_mod_cast (ne_of_gt hT0)
  have hdiv : F64.div (F64.fin 100) (float64 T) = roundF64 (100 / (T : ℚ)) := by
    rw [float64_int T hT0 hT]
    simp [F64.div, hTq]
  unfold SRVweight
  simp only [hw, Option.getD_some, hdiv]
  by_cases h0 : serv.Weight = 0
  · simp [h0, effWeight]
  · rw [if_neg h0, float64_int serv.Weight (by omega) he]
    simp [effWeight, h0]

theorem SRVweight_exact_100 (w : Int → Option Int) (serv : Service)
    (hw : w serv.Priority = some 100) (he0 : 0 ≤ serv.Weight) (hle : serv.Weight ≤ 100) :
    (SRVweight w serv : Int) = effWeight serv := by
  have he1 : 1 ≤ effWeight serv := effWeight_pos serv he0
  have he2 : effWeight serv ≤ 100 := by
    unfold effWeight
    split <;> omega
  rw [SRVweight_eq w serv 100 hw (by norm_num) (by norm_num) he0 (by omega)]
  have h1 : (100 : ℚ) / ((100 : Int) : ℚ) = ((1 : Int) : ℚ) := by norm_num
  rw [h1, roundF64_int 1 (by norm_num) (by norm_num)]
  have h2 : F64.mul (F64.fin ((1 : Int) : ℚ)) (F64.fin (effWeight serv : ℚ)) =
      F64.fin (effWeight serv : ℚ) := by
    simp only [F64.mul, Int.cast_one, one_mul]
    exact roundF64_int (effWeight serv) (by omega) (by omega)
  rw [h2, toUint16_floor _ (by exact_mod_cast (by omega : 0 ≤ effWeight serv))
    (by exact_mod_cast (by omega : effWeight serv < 65536)), Int.floor_intCast]

theorem SRVweight_total_100 (w : Int → Option Int) (serv : Service)
    (hw : w serv.Priority = some 100) (hpos : 0 < serv.Weight) (hle : serv.Weight ≤ 100) :
    (SRVweight w serv : Int) = serv.Weight := by
  rw [SRVweight_exact_100 w serv hw (le_of_lt hpos) hle]
  unfold effWeight
  rw [if_pos (by omega)]

theorem SRVweight_unset (w : Int → Option Int) (serv : Service)
    (hw : w serv.Priority = some 100) (h0 : serv.Weight = 0) :
    SRVweight w serv = 100 := by
  have h := SRVweight_exact_100 w serv hw (by omega) (by omega)
  simp only [effWeight, h0, ne_eq, not_true_eq_false, if_false] at h
  exact_mod_cast h

theorem SRVrecord_weight (E : Env) (state : Request) (w : Int → Option Int) (serv : Service) :
    ∃ srv, SRVrecord E state w serv = RR.SRV srv ∧ srv.Weight = SRVweight w serv := by
  unfold SRVrecord
  cases E.ParseIP serv.Host with
  | none => exact ⟨_, rfl, rfl⟩
  | some ip => exact ⟨_, rfl, rfl⟩

/-- C2: SRV weights in exact arithmetic.  In a priority group whose records
all carry explicit positive weights summing to 100, the SRV record emitted for
each service of the group carries the service's configured weight; and when a
priority group is a single record with unset (zero) weight, the SRV record
emitted for it carries weight 100. -/
theorem SRV_weights_sum_100 (E : Env) (zone : String) (state : Request)
    (svcs : List Service) (p : Int)
    (hreg : records E state false = (svcs, none)) :
    ((∀ s ∈ svcs, s.Priority = p → 0 < s.Weight) →
      ((priorityGroup p svcs).map Service.Weight).sum = 100 →
      ∀ (i : Nat) (s : Service), svcs[i]? = some s → s.Priority = p →
        ∃ srv, (SRV E zone state).1[i]? = some (RR.SRV srv) ∧ (srv.Weight : Int) = s.Weight) ∧
    (∀ s, priorityGroup p svcs = [s] → s.Weight = 0 →
      ∀ i : Nat, svcs[i]? = some s →
        ∃ srv, (SRV E zone state).1[i]? = some (RR.SRV srv) ∧ srv.Weight = 100) := by
  have hrec := SRV_records E zone state svcs hreg
  constructor
  · intro hpos hsum i s hi hp
    have hmem : s ∈ svcs := List.getElem?_mem hi
    have hgmem : s ∈ priorityGroup p svcs := by
      simp [priorityGroup, hmem, hp]
    have hgpos : ∀ t ∈ priorityGroup p svcs, 0 < t.Weight := by
      intro t ht
      simp only [priorityGroup, List.mem_filter, decide_eq_true_eq] at ht
      exact hpos t ht.1 ht.2
    have heff : (priorityGroup p svcs).map effWeight = (priorityGroup p svcs).map Service.Weight := by
      apply List.map_congr_left
      intro t ht
      have := hgpos t ht
      simp only [effWeight]
      rw [if_pos (by omega)]
    have hne : priorityGroup p svcs ≠ [] := List.ne_nil_of_mem hgmem
    have hw : SRVweights (fun _ => none) svcs s.Priority = some 100 := by
      rw [hp, SRVweights_total svcs p hne (fun t ht => le_of_lt (hgpos t ht))
        (by rw [heff, hsum]; norm_num), heff, hsum]
    have hle : s.Weight ≤ 100 := by
      rw [← hsum]
      apply List.single_le_sum
      · intro x hx
        simp only [List.mem_map] at hx
        obtain ⟨t, ht, rfl⟩ := hx
        exact le_of_lt (hgpos t ht)
      · exact List.mem_map_of_mem _ hgmem
    obtain ⟨srv, hsrv, hwt⟩ := SRVrecord_weight E state (SRVweights (fun _ => none) svcs) s
    refine ⟨srv, ?_, ?_⟩
    · rw [hrec, List.getElem?_map, hi]
      simp [hsrv]
    · rw [hwt]
      exact SRVweight_total_100 _ s hw (hpos s hmem hp) hle
  · intro s hg h0 i hi
    have hgmem : s ∈ priorityGroup p svcs := by rw [hg]; simp
    have hp : s.Priority = p := by
      simp only [priorityGroup, List.mem_filter, decide_eq_true_eq] at hgmem
      exact hgmem.2
    have hw : SRVweights (fun _ => none) svcs s.Priority = some 100 := by
      rw [hp, SRVweights_groupTotal, hg]
      simp [effWeight, h0, groupTotal]
    obtain ⟨srv, hsrv, hwt⟩ := SRVrecord_weight E state (SRVweights (fun _ => none) svcs) s
    refine ⟨srv, ?_, ?_⟩
    · rw [hrec, List.getElem?_map, hi]
      simp [hsrv]
    · rw [hwt]
      exact SRVweight_unset _ s hw h0

/-- C2 at the registry with weights 30 and 70 in priority 10. -/
theorem SRV_weights_sum_100_witness :
    ∃ a b, (SRV (exampleEnv srvRegistry) "miek.nl." ⟨"_http._tcp.miek.nl.", 33⟩).1[0]? =
        some (RR.SRV a) ∧ (a.Weight : Int) = 30 ∧
      (SRV (exampleEnv srvRegistry) "miek.nl." ⟨"_http._tcp.miek.nl.", 33⟩).1[1]? =
        some (RR.SRV b) ∧ (b.Weight : Int) = 70 := by
  have h := (SRV_weights_sum_100 (exampleEnv srvRegistry) "miek.nl."
    ⟨"_http._tcp.miek.nl.", 33⟩
    [⟨"139.162.196.78", "a.miek.nl.", 80, 10, 30, 300⟩,
      ⟨"b.miek.nl.", "b.miek.nl.", 80, 10, 70, 300⟩] 10 (by decide)).1
    (by
      intro s hs _
      simp only [List.mem_cons, List.mem_singleton, List.not_mem_nil, or_false] at hs
      rcases hs with rfl | rfl <;> decide)
    (by decide)
  obtain ⟨a, ha, hwa⟩ := h 0 _ rfl rfl
  obtain ⟨b, hb, hwb⟩ := h 1 _ rfl rfl
  exact ⟨a, b, ha, hwa, hb, hwb⟩

/-! ## `NS` -/

theorem NS_of_lookup (E : Env) (zone : String) (state : Request) (svcs : List Service)
    (hreg : records E ⟨"ns.dns." ++ zone, state.qtype⟩ false = (svcs, none)) :
    NS E zone state =
      ⟨(NSloop E state [] [] svcs).1, (NSloop E state [] [] svcs).2.1,
        (NSloop E state [] [] svcs).2.2, state⟩ := by
  unfold NS
  simp only [Request.Clear, Request.QName, hreg]

theorem NSloop_addresses (E : Env) (state : Request) (svcs : List Service)
    (hall : ∀ s ∈ svcs, E.ParseIP s.Host ≠ none) :
    ∀ records extra, ∃ gl, NSloop E state records extra svcs =
        (records ++ svcs.map (fun s => RR.NS state.qname s.TTL s.Key), extra ++ gl, none) ∧
      gl.map some = svcs.map (NSglue E) := by
  induction svcs with
  | nil => intro records extra; exact ⟨[], by simp [NSloop], rfl⟩
  | cons serv rest ih =>
    intro records extra
    have hrest : ∀ s ∈ rest, E.ParseIP s.Host ≠ none :=
      fun s hs => hall s (List.mem_cons_of_mem _ hs)
    have hserv := hall serv (List.mem_cons_self _ _)
    unfold NSloop
    rcases hip : E.ParseIP serv.Host with _ | ⟨b | b⟩
    · exact absurd hip hserv
    · obtain ⟨gl, hgl, hmap⟩ := ih hrest
        (records ++ [RR.NS state.qname serv.TTL serv.Key]) (extra ++ [RR.A serv.Key serv.TTL (IP.v4 b)])
      refine ⟨RR.A serv.Key serv.TTL (IP.v4 b) :: gl, ?_, ?_⟩
      · simpa [Service.NewNS, Service.NewA, Request.QName] using hgl
      · simp [hmap, NSglue, hip]
    · obtain ⟨gl, hgl, hmap⟩ := ih hrest
        (records ++ [RR.NS state.qname serv.TTL serv.Key])
        (extra ++ [RR.AAAA serv.Key serv.TTL (IP.v6 b)])
      refine ⟨RR.AAAA serv.Key serv.TTL (IP.v6 b) :: gl, ?_, ?_⟩
      · simpa [Service.NewNS, Service.NewAAAA, Request.QName] using hgl
      · simp [hmap, NSglue, hip]

theorem NSloop_error (E : Env) (state : Request) (svcs : List Service) :
    ∀ records extra,
      ((NSloop E state records extra svcs).2.2 ≠ none ↔ ∃ s ∈ svcs, E.ParseIP s.Host = none) ∧
      ((NSloop E state records extra svcs).2.2 ≠ none →
        (NSloop E state records extra svcs).1 = [] ∧
          (NSloop E state records extra svcs).2.1 = []) := by
  induction svcs with
  | nil => intro records extra; simp [NSloop]
  | cons serv rest ih =>
    intro records extra
    unfold NSloop
    rcases hip : E.ParseIP serv.Host with _ | ⟨b | b⟩
    · simp [hip]
    · have h := ih (records ++ [({ serv with Host := serv.Key } : Service).NewNS state.QName])
        (extra ++ [({ serv with Host := serv.Key } : Service).NewA serv.Key (IP.v4 b)])
      simpa [hip] using h
    · have h := ih (records ++ [({ serv with Host := serv.Key } : Service).NewNS state.QName])
        (extra ++ [({ serv with Host := serv.Key } : Service).NewAAAA serv.Key (IP.v6 b)])
      simpa [hip] using h

theorem NSloop_first_name (E : Env) (state : Request) (s : Service) (post : List Service)
    (hs : E.ParseIP s.Host = none) (pre : List Service) :
    (∀ t ∈ pre, E.ParseIP t.Host ≠ none) → ∀ records extra,
      NSloop E state records extra (pre ++ s :: post) =
        ([], [], some ("NS record must be an IP address: " ++ s.Host)) := by
  induction pre with
  | nil => intro _ records extra; simp [NSloop, hs]
  | cons t pre ih =>
    intro hpre records extra
    have ht := hpre t (List.mem_cons_self _ _)
    have hpre' : ∀ u ∈ pre, E.ParseIP u.Host ≠ none :=
      fun u hu => hpre u (List.mem_cons_of_mem _ hu)
    simp only [List.cons_append]
    unfold NSloop
    rcases hip : E.ParseIP t.Host with _ | ⟨b | b⟩
    · exact absurd hip ht
    · exact ih hpre' _ _
    · exact ih hpre' _ _

/-- C3 (the code at the failing input): when the registry lookup for
`ns.dns.miek.nl.` fails, `NS` returns the registry's error and leaves the
request with the query name `ns.dns.miek.nl.` instead of `miek.nl.`. -/
theorem NS_registry_error_keeps_substituted_name :
    (NS (exampleEnv failingRegistry) "miek.nl." ⟨"miek.nl.", 2⟩).err =
      some "registry unavailable" ∧
    (NS (exampleEnv failingRegistry) "miek.nl." ⟨"miek.nl.", 2⟩).state.qname =
      "ns.dns.miek.nl." ∧
    (NS (exampleEnv failingRegistry) "miek.nl." ⟨"miek.nl.", 2⟩).state.qname ≠ "miek.nl." := by
  decide

/-- Whenever the registry lookup made by `NS` fails, the request is left with
the substituted query name `ns.dns.<zone>`. -/
theorem NS_state_after_registry_error (E : Env) (zone : String) (state : Request)
    (svcs : List Service) (err : Err)
    (hreg : E.Records ("ns.dns." ++ zone) false = (svcs, some err)) :
    (NS E zone state).err = some err ∧ (NS E zone state).state.qname = "ns.dns." ++ zone := by
  unfold NS records
  simp [Request.Clear, Request.Name, hreg]

/-- C4: when every service the lookup for `ns.dns.<zone>` returns has an IPv4
host, `NS` returns no error, one NS record per service in order (owned by the
query name, its target the service's `Key`), one A glue record per service in
order (owned by that `Key`, carrying the service's address), and the request
keeps its query name. -/
theorem NS_all_ipv4 (E : Env) (zone : String) (state : Request) (svcs : List Service)
    (hreg : records E ⟨"ns.dns." ++ zone, state.qtype⟩ false = (svcs, none))
    (hv4 : ∀ s ∈ svcs, ∃ b, E.ParseIP s.Host = some (IP.v4 b)) :
    (NS E zone state).err = none ∧
    (NS E zone state).records = svcs.map (fun s => RR.NS state.qname s.TTL s.Key) ∧
    (NS E zone state).extra.length = svcs.length ∧
    (∀ (i : Nat) (s : Service), svcs[i]? = some s →
      ∃ b, E.ParseIP s.Host = some (IP.v4 b) ∧
        (NS E zone state).extra[i]? = some (RR.A s.Key s.TTL (IP.v4 b))) ∧
    (NS E zone state).state = state := by
  have hall : ∀ s ∈ svcs, E.ParseIP s.Host ≠ none := by
    intro s hs
    obtain ⟨b, hb⟩ := hv4 s hs
    simp [hb]
  obtain ⟨gl, hgl, hmap⟩ := NSloop_addresses E state svcs hall [] []
  rw [NS_of_lookup E zone state svcs hreg, hgl]
  refine ⟨rfl, rfl, ?_, ?_, rfl⟩
  · have := congrArg List.length hmap
    simpa using this
  · intro i s hi
    obtain ⟨b, hb⟩ := hv4 s (List.getElem?_mem hi)
    refine ⟨b, hb, ?_⟩
    have h := congrArg (fun l => l[i]?) hmap
    simp only [List.getElem?_map, hi, Option.map_some'] at h
    cases hg : gl[i]? with
    | none => simp [hg] at h
    | some g =>
      simp only [hg, Option.map_some', NSglue, hb, Option.some.injEq] at h
      subst h
      simpa using hg

/-- C4 at the registry with two IPv4 name servers. -/
theorem NS_all_ipv4_witness :
    (NS (exampleEnv nsRegistry) "miek.nl." ⟨"miek.nl.", 2⟩).err = none ∧
    (NS (exampleEnv nsRegistry) "miek.nl." ⟨"miek.nl.", 2⟩).records =
      [RR.NS "miek.nl." 300 "a.ns.dns.miek.nl.", RR.NS "miek.nl." 600 "b.ns.dns.miek.nl."] ∧
    (NS (exampleEnv nsRegistry) "miek.nl." ⟨"miek.nl.", 2⟩).extra.length = 2 ∧
    (NS (exampleEnv nsRegistry) "miek.nl." ⟨"miek.nl.", 2⟩).state = ⟨"miek.nl.", 2⟩ := by
  have h := NS_all_ipv4 (exampleEnv nsRegistry) "miek.nl." ⟨"miek.nl.", 2⟩
    [⟨"139.162.196.78", "a.ns.dns.miek.nl.", 0, 0, 0, 300⟩,
      ⟨"139.162.196.78", "b.ns.dns.miek.nl.", 0, 0, 0, 600⟩] (by decide)
    (by
      intro s hs
      simp only [List.mem_cons, List.mem_singleton, List.not_mem_nil, or_false] at hs
      rcases hs with rfl | rfl <;> exact ⟨[139, 162, 196, 78], rfl⟩)
  exact ⟨h.1, h.2.1, h.2.2.1, h.2.2.2.2⟩

/-- C5: given that the registry lookup for `ns.dns.<zone>` succeeded, `NS` fails
exactly when some service's `Host` is not an IP address; when it fails it
returns no NS record and no glue record, and the error names the first host
that is not an address, also when services with valid addresses precede it. -/
theorem NS_fails_iff_host_not_ip (E : Env) (zone : String) (state : Request)
    (svcs : List Service)
    (hreg : records E ⟨"ns.dns." ++ zone, state.qtype⟩ false = (svcs, none)) :
    ((NS E zone state).err ≠ none ↔ ∃ s ∈ svcs, E.ParseIP s.Host = none) ∧
    ((NS E zone state).err ≠ none →
      (NS E zone state).records = [] ∧ (NS E zone state).extra = []) ∧
    (∀ pre s post, svcs = pre ++ s :: post → (∀ t ∈ pre, E.ParseIP t.Host ≠ none) →
      E.ParseIP s.Host = none →
        (NS E zone state).err = some ("NS record must be an IP address: " ++ s.Host) ∧
        (NS E zone state).records = [] ∧ (NS E zone state).extra = []) := by
  rw [NS_of_lookup E zone state svcs hreg]
  obtain ⟨h1, h2⟩ := NSloop_error E state svcs [] []
  refine ⟨h1, h2, ?_⟩
  intro pre s post hsplit hpre hs
  subst hsplit
  rw [NSloop_first_name E state s post hs pre hpre [] []]
  exact ⟨rfl, rfl, rfl⟩

/-- C5 at the registry whose second name server is a name. -/
theorem NS_fails_iff_host_not_ip_witness :
    (NS (exampleEnv nsNameRegistry) "miek.nl." ⟨"miek.nl.", 2⟩).err =
      some "NS record must be an IP address: ns1.example.org." ∧
    (NS (exampleEnv nsNameRegistry) "miek.nl." ⟨"miek.nl.", 2⟩).records = [] ∧
    (NS (exampleEnv nsNameRegistry) "miek.nl." ⟨"miek.nl.", 2⟩).extra = [] :=
  (NS_fails_iff_host_not_ip (exampleEnv nsNameRegistry) "miek.nl." ⟨"miek.nl.", 2⟩
    [⟨"139.162.196.78", "a.ns.dns.miek.nl.", 0, 0, 0, 300⟩,
      ⟨"ns1.example.org.", "b.ns.dns.miek.nl.", 0, 0, 0, 600⟩] (by decide)).2.2
    [⟨"139.162.196.78", "a.ns.dns.miek.nl.", 0, 0, 0, 300⟩]
    ⟨"ns1.example.org.", "b.ns.dns.miek.nl.", 0, 0, 0, 600⟩ [] rfl
    (by
      intro t ht
      simp only [List.mem_singleton] at ht
      subst ht
      decide)
    (by decide)

/-! ## `PTR` -/

theorem PTRloop_entries (E : Env) (state : Request) (reverseIP : String)
    (svcs : List Service) :
    ∀ records, PTRloop E state reverseIP records svcs =
      records ++ svcs.filterMap (PTRentry E state reverseIP) := by
  induction svcs with
  | nil => intro records; simp [PTRloop]
  | cons serv rest ih =>
    intro records
    unfold PTRloop
    dsimp only
    by_cases hne : reverseIP ≠ serv.Host
    · rw [if_pos hne, ih]
      simp [PTRentry, hne]
    · rw [if_neg hne]
      have hent : PTRentry E state reverseIP serv =
          match E.ParseIP serv.Host with
          | some (IP.v4 b) => some (some (serv.NewPTR state.QName (E.IPString (IP.v4 b))))
          | _ => none := by
        unfold PTRentry
        rw [if_neg hne]
      rcases hip : E.ParseIP serv.Host with _ | ⟨b | b⟩
      · rw [hip] at hent
        simp only at hent
        simp only [ih, List.filterMap_cons, hent]
      · rw [hip] at hent
        simp only at hent
        simp only [ih, List.filterMap_cons, hent, List.append_assoc, List.singleton_append]
      · rw [hip] at hent
        simp only at hent
        simp only [ih, List.filterMap_cons, hent]

theorem PTR_result (E : Env) (zone : String) (state : Request) (svcs : List Service)
    (hrev : E.ExtractAddressFromReverse state.Name ≠ "")
    (hreg : records E state false = (svcs, none)) :
    PTR E zone state =
      (none :: svcs.filterMap (PTRentry E state (E.ExtractAddressFromReverse state.Name)),
        none) := by
  unfold PTR
  simp only [hrev, if_false, hreg, PTRloop_entries]
  rfl

/-- C6 (the code at the failing input): for the reverse name of
`139.162.196.78` and a registry without entries, `PTR` returns a list of one
`nil` entry, not the empty list; with the one matching service it returns two
entries, not one. -/
theorem PTR_leading_nil_entry :
    PTR (exampleEnv emptyRegistry) "in-addr.arpa." ⟨"78.196.162.139.in-addr.arpa.", 12⟩ =
      ([none], none) ∧
    (PTR (exampleEnv ptrRegistry) "in-addr.arpa."
      ⟨"78.196.162.139.in-addr.arpa.", 12⟩).1.length = 2 := by
  decide

/-- For a well-formed reverse name and a successful lookup, `PTR` returns one
more entry than there are matching IPv4 services. -/
theorem PTR_length (E : Env) (zone : String) (state : Request) (svcs : List Service)
    (hrev : E.ExtractAddressFromReverse state.Name ≠ "")
    (hreg : records E state false = (svcs, none)) :
    (PTR E zone state).1.length =
      (svcs.filterMap (PTRentry E state (E.ExtractAddressFromReverse state.Name))).length + 1 := by
  rw [PTR_result E zone state svcs hrev hreg]
  simp

/-- C7 (the code at the failing input): for the reverse name of the address
`139.162.196.78` and the one service with host `139.162.196.78` and key
`a.delegated.miek.nl.`, the record `PTR` returns after the `nil` entry is the
one `NewPTR` builds for the query name from the text of the address,
`ip.To4().String()`; the key, the name of the service, is the target of no
returned record. -/
theorem PTR_target_from_address_text :
    (PTR (exampleEnv ptrRegistry) "in-addr.arpa." ⟨"78.196.162.139.in-addr.arpa.", 12⟩).1 =
      [none, some (Service.NewPTR ⟨"139.162.196.78", "a.delegated.miek.nl.", 0, 0, 0, 1800⟩
        "78.196.162.139.in-addr.arpa." ((exampleEnv ptrRegistry).IPString ip4Example))] ∧
    ¬ ∃ name ttl, some (RR.PTR name ttl "a.delegated.miek.nl.") ∈
      (PTR (exampleEnv ptrRegistry) "in-addr.arpa." ⟨"78.196.162.139.in-addr.arpa.", 12⟩).1 := by
  have hP : (PTR (exampleEnv ptrRegistry) "in-addr.arpa."
      ⟨"78.196.162.139.in-addr.arpa.", 12⟩).1 =
      [none, some (Service.NewPTR ⟨"139.162.196.78", "a.delegated.miek.nl.", 0, 0, 0, 1800⟩
        "78.196.162.139.in-addr.arpa." ((exampleEnv ptrRegistry).IPString ip4Example))] := by
    decide
  refine ⟨hP, ?_⟩
  rintro ⟨name, ttl, h⟩
  rw [hP] at h
  have hs : (exampleEnv ptrRegistry).IPString ip4Example = "139.162.196.78" := by decide
  simp [Service.NewPTR, hs] at h

/-! ## Registry failure -/

theorem records_error (E : Env) (state : Request) (exact : Bool) (e : Err)
    (h : (E.Records state.Name exact).2 = some e) :
    records E state exact = ([], some e) := by
  unfold records
  rcases hr : E.Records state.Name exact with ⟨services, _ | err⟩
  · rw [hr] at h; simp at h
  · rw [hr] at h
    simp only [Option.some.injEq] at h
    subst h
    rfl

/-- C11: when the registry lookup made for the query fails with error `e`,
each of `AAAA`, `SRV`, `NS` and `PTR` (for a name from which an address is
extracted) returns exactly `e`, with no answer record and no extra record. -/
theorem registry_failure_propagates (E : Env) (zone : String) (state : Request)
    (prev : List RR) (e : Err) :
    ((E.Records state.Name false).2 = some e →
      AAAA E zone state prev = some ([], some e)) ∧
    ((E.Records state.Name false).2 = some e → SRV E zone state = ([], [], some e)) ∧
    ((E.Records ("ns.dns." ++ zone) false).2 = some e →
      (NS E zone state).err = some e ∧ (NS E zone state).records = [] ∧
        (NS E zone state).extra = []) ∧
    (E.ExtractAddressFromReverse state.Name ≠ "" → (E.Records state.Name false).2 = some e →
      PTR E zone state = ([], some e)) := by
  refine ⟨?_, ?_, ?_, ?_⟩
  · intro h
    rw [AAAA_unfold]
    unfold AAAAbody
    rw [records_error E state false e h]
  · intro h
    unfold SRV
    rw [records_error E state false e h]
  · intro h
    have hr := records_error E ⟨"ns.dns." ++ zone, state.qtype⟩ false e h
    unfold NS
    simp [Request.Clear, hr]
  · intro hrev h
    unfold PTR
    simp only [hrev, if_false, records_error E state false e h]

/-- C11 at a registry whose every lookup fails. -/
theorem registry_failure_propagates_witness :
    AAAA (exampleEnv failingRegistry) "miek.nl." ⟨"www.miek.nl.", 28⟩ [] =
      some ([], some "registry unavailable") ∧
    SRV (exampleEnv failingRegistry) "miek.nl." ⟨"www.miek.nl.", 28⟩ =
      ([], [], some "registry unavailable") :=
  ⟨(registry_failure_propagates (exampleEnv failingRegistry) "miek.nl." ⟨"www.miek.nl.", 28⟩ []
      "registry unavailable").1 rfl,
    (registry_failure_propagates (exampleEnv failingRegistry) "miek.nl." ⟨"www.miek.nl.", 28⟩ []
      "registry unavailable").2.1 rfl⟩

/-! ## Iterations of the second loop of `SRV` -/

theorem SRVloop_cons (E : Env) (zone : String) (state : Request) (w : Int → Option Int)
    (st : SRVstate) (serv : Service) (rest : List Service) :
    SRVloop E zone state w st.records st.extra st.lookup (serv :: rest) =
      SRVloop E zone state w (SRVserv E zone state w st serv).records
        (SRVserv E zone state w st serv).extra (SRVserv E zone state w st serv).lookup rest := by
  rw [SRVloop]
  unfold SRVserv
  dsimp only
  rcases hip : E.ParseIP serv.Host with _ | ⟨b | b⟩
  · dsimp only
    split
    · rfl
    · split
      · rfl
      · split <;> rfl
  · rfl
  · rfl

theorem SRVloop_fold (E : Env) (zone : String) (state : Request) (w : Int → Option Int)
    (svcs : List Service) :
    ∀ st : SRVstate, SRVloop E zone state w st.records st.extra st.lookup svcs =
      ((svcs.foldl (SRVserv E zone state w) st).records,
        (svcs.foldl (SRVserv E zone state w) st).extra) := by
  induction svcs with
  | nil => intro st; simp [SRVloop]
  | cons serv rest ih =>
    intro st
    rw [List.foldl_cons, ← ih, SRVloop_cons]

theorem SRV_run (E : Env) (zone : String) (state : Request) (svcs : List Service)
    (hreg : records E state false = (svcs, none)) :
    SRV E zone state =
      ((SRVrun E zone state svcs).records, (SRVrun E zone state svcs).extra, none) := by
  unfold SRV SRVrun
  simp only [hreg]
  rw [SRVloop_fold E zone state _ svcs ⟨[], [], [], []⟩]

theorem SRVserv_address (E : Env) (zone : String) (state : Request) (w : Int → Option Int)
    (st : SRVstate) (serv : Service) (ip : IP) (hip : E.ParseIP serv.Host = some ip) :
    SRVserv E zone state w st serv =
      ⟨st.records ++
          [RR.SRV ⟨state.qname, serv.TTL, serv.Priority, SRVweight w serv, serv.Port, serv.Key⟩],
        st.extra ++ [addressGlue serv ip], st.lookup, st.calls⟩ := by
  unfold SRVserv
  cases ip <;> simp only [hip] <;> rfl

theorem SRVserv_seen (E : Env) (zone : String) (state : Request) (w : Int → Option Int)
    (st : SRVstate) (serv : Service) (hname : E.ParseIP serv.Host = none)
    (hseen : serv.Host ∈ st.lookup) :
    SRVserv E zone state w st serv =
      ⟨st.records ++ [RR.SRV (serv.NewSRV state.QName (SRVweight w serv))], st.extra,
        st.lookup, st.calls⟩ := by
  unfold SRVserv
  simp only [hname]
  rw [if_pos (by simpa [Service.NewSRV] using hseen)]

theorem SRVserv_lookup_mono (E : Env) (zone : String) (state : Request)
    (w : Int → Option Int) (st : SRVstate) (serv : Service) (name : String)
    (h : name ∈ st.lookup) : name ∈ (SRVserv E zone state w st serv).lookup := by
  unfold SRVserv
  dsimp only
  rcases hip : E.ParseIP serv.Host with _ | ⟨b | b⟩
  · dsimp only
    split
    · exact h
    · split
      · exact List.mem_cons_of_mem _ h
      · split <;> exact List.mem_cons_of_mem _ h
  · exact h
  · exact h

theorem SRVserv_lookup_self (E : Env) (zone : String) (state : Request)
    (w : Int → Option Int) (st : SRVstate) (serv : Service)
    (hname : E.ParseIP serv.Host = none) :
    serv.Host ∈ (SRVserv E zone state w st serv).lookup := by
  unfold SRVserv
  simp only [hname]
  split
  · rename_i h; simpa [Service.NewSRV] using h
  · split
    · simp [Service.NewSRV]
    · split <;> simp [Service.NewSRV]

theorem SRVfold_lookup_mono (E : Env) (zone : String) (state : Request)
    (w : Int → Option Int) (svcs : List Service) (name : String) :
    ∀ st : SRVstate, name ∈ st.lookup →
      name ∈ (svcs.foldl (SRVserv E zone state w) st).lookup := by
  induction svcs with
  | nil => intro st h; exact h
  | cons serv rest ih =>
    intro st h
    rw [List.foldl_cons]
    exact ih _ (SRVserv_lookup_mono E zone state w st serv name h)

/-- Invariant of the second loop of `SRV`: no target is entered twice into
`lookup`, no glue lookup is made twice, and every glue lookup made is for a
target in `lookup`. -/
theorem SRVserv_once (E : Env) (zone : String) (state : Request) (w : Int → Option Int)
    (st : SRVstate) (serv : Service)
    (h : st.lookup.Nodup ∧ st.calls.Nodup ∧ ∀ c ∈ st.calls, c.name ∈ st.lookup) :
    (SRVserv E zone state w st serv).lookup.Nodup ∧
    (SRVserv E zone state w st serv).calls.Nodup ∧
    ∀ c ∈ (SRVserv E zone state w st serv).calls,
      c.name ∈ (SRVserv E zone state w st serv).lookup := by
  obtain ⟨hl, hc, hin⟩ := h
  unfold SRVserv
  dsimp only
  rcases hip : E.ParseIP serv.Host with _ | ⟨b | b⟩
  · dsimp only
    split
    · exact ⟨hl, hc, hin⟩
    · rename_i hnew
      have hfresh : ∀ c ∈ st.calls, c.name ≠ (serv.NewSRV state.QName (SRVweight w serv)).Target :=
        fun c hcm heq => hnew (heq ▸ hin c hcm)
      split
      · refine ⟨List.nodup_cons.mpr ⟨hnew, hl⟩, ?_, ?_⟩
        · rw [List.nodup_append]
          refine ⟨hc, by simp [dns.TypeA, dns.TypeAAAA], ?_⟩
          intro c hc1 hc2
          simp only [List.mem_cons, List.mem_singleton, List.not_mem_nil, or_false] at hc2
          rcases hc2 with rfl | rfl <;> exact hfresh _ hc1 rfl
        · intro c hcm
          rcases List.mem_append.mp hcm with h1 | h1
          · exact List.mem_cons_of_mem _ (hin c h1)
          · simp only [List.mem_cons, List.mem_singleton, List.not_mem_nil, or_false] at h1
            rcases h1 with rfl | rfl <;> simp [GlueLookup.name]
      · have hcalls : (st.calls ++
            [GlueLookup.inZone (serv.NewSRV state.QName (SRVweight w serv)).Target]).Nodup := by
          rw [List.nodup_append]
          refine ⟨hc, by simp, ?_⟩
          intro c hc1 hc2
          simp only [List.mem_singleton] at hc2
          subst hc2
          exact hfresh _ hc1 rfl
        have hmem : ∀ c ∈ st.calls ++
            [GlueLookup.inZone (serv.NewSRV state.QName (SRVweight w serv)).Target],
            c.name ∈ (serv.NewSRV state.QName (SRVweight w serv)).Target :: st.lookup := by
          intro c hcm
          rcases List.mem_append.mp hcm with h1 | h1
          · exact List.mem_cons_of_mem _ (hin c h1)
          · simp only [List.mem_singleton] at h1
            subst h1
            simp [GlueLookup.name]
        split <;> exact ⟨List.nodup_cons.mpr ⟨hnew, hl⟩, hcalls, hmem⟩
  · exact ⟨hl, hc, hin⟩
  · exact ⟨hl, hc, hin⟩

theorem SRVfold_once (E : Env) (zone : String) (state : Request) (w : Int → Option Int)
    (svcs : List Service) :
    ∀ st : SRVstate, (st.lookup.Nodup ∧ st.calls.Nodup ∧ ∀ c ∈ st.calls, c.name ∈ st.lookup) →
      (svcs.foldl (SRVserv E zone state w) st).lookup.Nodup ∧
      (svcs.foldl (SRVserv E zone state w) st).calls.Nodup ∧
      ∀ c ∈ (svcs.foldl (SRVserv E zone state w) st).calls,
        c.name ∈ (svcs.foldl (SRVserv E zone state w) st).lookup := by
  induction svcs with
  | nil => intro st h; exact h
  | cons serv rest ih =>
    intro st h
    rw [List.foldl_cons]
    exact ih _ (SRVserv_once E zone state w st serv h)

theorem SRVfold_addresses (E : Env) (zone : String) (state : Request) (w : Int → Option Int)
    (svcs : List Service) (hall : ∀ s ∈ svcs, E.ParseIP s.Host ≠ none) :
    ∀ st : SRVstate, ∃ gl, svcs.foldl (SRVserv E zone state w) st =
        ⟨st.records ++ svcs.map (fun s =>
            RR.SRV ⟨state.qname, s.TTL, s.Priority, SRVweight w s, s.Port, s.Key⟩),
          st.extra ++ gl, st.lookup, st.calls⟩ ∧
      gl.map some = svcs.map (fun s => (E.ParseIP s.Host).map (addressGlue s)) := by
  induction svcs with
  | nil => intro st; exact ⟨[], by simp, rfl⟩
  | cons serv rest ih =>
    intro st
    have hrest : ∀ s ∈ rest, E.ParseIP s.Host ≠ none :=
      fun s hs => hall s (List.mem_cons_of_mem _ hs)
    rcases hip : E.ParseIP serv.Host with _ | ip
    · exact absurd hip (hall serv (List.mem_cons_self _ _))
    · obtain ⟨gl, hgl, hmap⟩ := ih hrest (SRVserv E zone state w st serv)
      refine ⟨addressGlue serv ip :: gl, ?_, ?_⟩
      · rw [List.foldl_cons, hgl, SRVserv_address E zone state w st serv ip hip]
        simp
      · simp [hmap, hip]

/-- C12: for a service whose `Host` is an IPv4 or IPv6 address, an iteration of
`SRV` appends an SRV record whose target is the service's `Key` and appends to
`extra` exactly one glue record, an A record for IPv4 and an AAAA record for
IPv6, owned by that `Key` and carrying the address; the SRV record returned at
the service's position has target `Key`; and for a list of address hosts only,
`records` and `extra` hold exactly one entry per service, in registry order. -/
theorem SRV_address_hosts (E : Env) (zone : String) (state : Request) (svcs : List Service)
    (hreg : records E state false = (svcs, none)) :
    (∀ (w : Int → Option Int) (st : SRVstate) (serv : Service) (ip : IP),
      E.ParseIP serv.Host = some ip →
        SRVserv E zone state w st serv =
          ⟨st.records ++ [RR.SRV
              ⟨state.qname, serv.TTL, serv.Priority, SRVweight w serv, serv.Port, serv.Key⟩],
            st.extra ++ [addressGlue serv ip], st.lookup, st.calls⟩) ∧
    (∀ (i : Nat) (s : Service) (ip : IP), svcs[i]? = some s → E.ParseIP s.Host = some ip →
      ∃ weight, (SRV E zone state).1[i]? =
        some (RR.SRV ⟨state.qname, s.TTL, s.Priority, weight, s.Port, s.Key⟩)) ∧
    ((∀ s ∈ svcs, E.ParseIP s.Host ≠ none) →
      (SRV E zone state).1.length = svcs.length ∧
      (SRV E zone state).2.1.length = svcs.length ∧
      (SRV E zone state).1.map (fun r => match r with
        | RR.SRV srv => some srv.Target
        | _ => none) = svcs.map (fun s => some s.Key) ∧
      (SRV E zone state).2.1.map some =
        svcs.map (fun s => (E.ParseIP s.Host).map (addressGlue s))) := by
  refine ⟨fun w st serv ip hip => SRVserv_address E zone state w st serv ip hip, ?_, ?_⟩
  · intro i s ip hi hip
    refine ⟨SRVweight (SRVweights (fun _ => none) svcs) s, ?_⟩
    rw [SRV_records E zone state svcs hreg, List.getElem?_map, hi]
    simp [SRVrecord, hip, Service.NewSRV, Request.QName]
  · intro hall
    obtain ⟨gl, hgl, hmap⟩ := SRVfold_addresses E zone state
      (SRVweights (fun _ => none) svcs) svcs hall ⟨[], [], [], []⟩
    rw [SRV_run E zone state svcs hreg]
    unfold SRVrun
    rw [hgl]
    refine ⟨by simp, ?_, by simp [Function.comp_def], by simpa using hmap⟩
    have := congrArg List.length hmap
    simpa using this

/-- C12 at the registry whose two services have the host `139.162.196.78`. -/
theorem SRV_address_hosts_witness :
    (SRV (exampleEnv v4Registry) "miek.nl." ⟨"v4.miek.nl.", 33⟩).1.length = 2 ∧
    (SRV (exampleEnv v4Registry) "miek.nl." ⟨"v4.miek.nl.", 33⟩).2.1.map some =
      [some (RR.A "a" 300 ip4Example), some (RR.A "b" 300 ip4Example)] := by
  have h := (SRV_address_hosts (exampleEnv v4Registry) "miek.nl." ⟨"v4.miek.nl.", 33⟩
    [⟨"139.162.196.78", "a", 0, 0, 0, 300⟩, ⟨"139.162.196.78", "b", 0, 0, 0, 300⟩]
    (by decide)).2.2
    (by
      intro s hs
      simp only [List.mem_cons, List.mem_singleton, List.not_mem_nil, or_false] at hs
      rcases hs with rfl | rfl <;> decide)
  exact ⟨h.1, h.2.2.2⟩

/-- C17: glue de-duplication in `SRV`.  The result of `SRV` is that of the run
of its second loop; in that run no target is entered twice into the set of
targets seen and no glue lookup (external resolver or in-zone A) is made
twice, each being for a target in that set; and a service whose `Host` is the
name of an earlier service adds its own SRV record, makes no glue lookup and
adds nothing to `extra`. -/
theorem SRV_glue_once (E : Env) (zone : String) (state : Request) (svcs : List Service)
    (hreg : records E state false = (svcs, none)) :
    SRV E zone state =
      ((SRVrun E zone state svcs).records, (SRVrun E zone state svcs).extra, none) ∧
    (SRVrun E zone state svcs).lookup.Nodup ∧
    (SRVrun E zone state svcs).calls.Nodup ∧
    (∀ c ∈ (SRVrun E zone state svcs).calls, c.name ∈ (SRVrun E zone state svcs).lookup) ∧
    (∀ (w : Int → Option Int) (pre mid : List Service) (s t : Service),
      E.ParseIP s.Host = none → t.Host = s.Host →
        SRVserv E zone state w
            ((pre ++ s :: mid).foldl (SRVserv E zone state w) ⟨[], [], [], []⟩) t =
          ⟨((pre ++ s :: mid).foldl (SRVserv E zone state w) ⟨[], [], [], []⟩).records ++
              [RR.SRV (t.NewSRV state.QName (SRVweight w t))],
            ((pre ++ s :: mid).foldl (SRVserv E zone state w) ⟨[], [], [], []⟩).extra,
            ((pre ++ s :: mid).foldl (SRVserv E zone state w) ⟨[], [], [], []⟩).lookup,
            ((pre ++ s :: mid).foldl (SRVserv E zone state w) ⟨[], [], [], []⟩).calls⟩) := by
  have hinv := SRVfold_once E zone state (SRVweights (fun _ => none) svcs) svcs ⟨[], [], [], []⟩
    ⟨List.nodup_nil, List.nodup_nil, fun c hc => by simp at hc⟩
  refine ⟨SRV_run E zone state svcs hreg, hinv.1, hinv.2.1, hinv.2.2, ?_⟩
  intro w pre mid s t hs hts
  apply SRVserv_seen
  · rw [hts]; exact hs
  · rw [hts, List.foldl_append, List.foldl_cons]
    exact SRVfold_lookup_mono E zone state w mid s.Host _
      (SRVserv_lookup_self E zone state w _ s hs)

/-- C17 at the registry in which two services name `b.example.org.`: the two
resolver lookups for that name are made once. -/
theorem SRV_glue_once_witness :
    (SRVrun (exampleEnv dupRegistry) "miek.nl." ⟨"_http._tcp.miek.nl.", 33⟩
      [⟨"b.example.org.", "x", 80, 10, 0, 300⟩, ⟨"b.example.org.", "y", 8080, 10, 0, 300⟩]).calls.Nodup ∧
    (SRVrun (exampleEnv dupRegistry) "miek.nl." ⟨"_http._tcp.miek.nl.", 33⟩
      [⟨"b.example.org.", "x", 80, 10, 0, 300⟩, ⟨"b.example.org.", "y", 8080, 10, 0, 300⟩]).calls =
      [GlueLookup.proxy "b.example.org." 1, GlueLookup.proxy "b.example.org." 28] :=
  ⟨(SRV_glue_once (exampleEnv dupRegistry) "miek.nl." ⟨"_http._tcp.miek.nl.", 33⟩
      [⟨"b.example.org.", "x", 80, 10, 0, 300⟩, ⟨"b.example.org.", "y", 8080, 10, 0, 300⟩]
      (by decide)).2.2.1, by decide⟩

/-! ## `SOA` -/

/-- C13: `SOA` is total and, for every zone, query state and clock value,
returns the SOA record owned by the zone with `Ns = "ns.dns." ++ zone`,
`Mbox = "hostmaster." ++ zone`, refresh 7200, retry 1800, expire 86400 and
minimum TTL 60 (for `miek.nl.`: `ns.dns.miek.nl.` and `hostmaster.miek.nl.`);
the query state plays no part and the clock decides the serial only. -/
theorem SOA_fixed_fields (now : Int) (zone : String) (state : Request) :
    (SOA now zone state).Name = zone ∧
    (SOA now zone state).Ns = "ns.dns." ++ zone ∧
    (SOA now zone state).Mbox = "hostmaster." ++ zone ∧
    (SOA now zone state).Refresh = 7200 ∧
    (SOA now zone state).Retry = 1800 ∧
    (SOA now zone state).Expire = 86400 ∧
    (SOA now zone state).Minttl = 60 ∧
    (SOA now "miek.nl." state).Ns = "ns.dns.miek.nl." ∧
    (SOA now "miek.nl." state).Mbox = "hostmaster.miek.nl." ∧
    (∀ state', SOA now zone state' = SOA now zone state) ∧
    (∀ now', SOA now' zone state = { SOA now zone state with Serial := uint32 now' }) := by
  refine ⟨rfl, rfl, rfl, rfl, rfl, rfl, rfl, ?_, ?_, fun _ => rfl, fun _ => rfl⟩
  · show "ns.dns." ++ "miek.nl." = "ns.dns.miek.nl."
    decide
  · show "hostmaster." ++ "miek.nl." = "hostmaster.miek.nl."
    decide

/-! ## Failure of `PTR` -/

theorem records_err (E : Env) (state : Request) (exact : Bool) :
    (records E state exact).2 = (E.Records state.Name exact).2 := by
  unfold records
  rcases E.Records state.Name exact with ⟨services, _ | err⟩ <;> rfl

/-- C14: `PTR` fails exactly when no address is extracted from the query name
or the registry lookup fails.  When extraction yields the empty string, `PTR`
returns the error and no record whatever the registry is (it is not
consulted); when an address is extracted and the lookup succeeds, `PTR`
returns no error. -/
theorem PTR_fails_iff (E : Env) (zone : String) (state : Request) :
    ((PTR E zone state).2 ≠ none ↔
      E.ExtractAddressFromReverse state.Name = "" ∨ (E.Records state.Name false).2 ≠ none) ∧
    (E.ExtractAddressFromReverse state.Name = "" →
      PTR E zone state = ([], some ("does not support reverse lookup for " ++ state.QName)) ∧
      ∀ (R : String → Bool → List Service × Option Err) (G : List Service → List Service),
        PTR { E with Records := R, Group := G } zone state = PTR E zone state) ∧
    (E.ExtractAddressFromReverse state.Name ≠ "" →
      ∀ svcs, records E state false = (svcs, none) → (PTR E zone state).2 = none) := by
  refine ⟨?_, ?_, ?_⟩
  · rw [← records_err E state false]
    unfold PTR
    by_cases hrev : E.ExtractAddressFromReverse state.Name = ""
    · simp [hrev]
    · rcases hr : records E state false with ⟨services, _ | err⟩ <;> simp [hrev]
  · intro hrev
    constructor
    · unfold PTR
      simp [hrev]
    · intro R G
      unfold PTR
      simp [hrev]
  · intro hrev svcs hreg
    unfold PTR
    simp [hrev, hreg]

/-- C14 at a name that is no reverse name, and at the reverse name of
`139.162.196.78`. -/
theorem PTR_fails_iff_witness :
    PTR (exampleEnv ptrRegistry) "in-addr.arpa." ⟨"www.miek.nl.", 12⟩ =
      ([], some "does not support reverse lookup for www.miek.nl.") ∧
    (PTR (exampleEnv ptrRegistry) "in-addr.arpa." ⟨"78.196.162.139.in-addr.arpa.", 12⟩).2 =
      none :=
  ⟨((PTR_fails_iff (exampleEnv ptrRegistry) "in-addr.arpa." ⟨"www.miek.nl.", 12⟩).2.1
      (by decide)).1,
    (PTR_fails_iff (exampleEnv ptrRegistry) "in-addr.arpa."
      ⟨"78.196.162.139.in-addr.arpa.", 12⟩).2.2 (by decide)
      [⟨"139.162.196.78", "a.delegated.miek.nl.", 0, 0, 0, 1800⟩] (by decide)⟩

/-! ## Unset weight and explicit weight 100 in `SRV` -/

theorem SRVweights_unset (w : Int → Option Int) (pre post : List Service) (s : Service)
    (h0 : s.Weight = 0) :
    SRVweights w (pre ++ ({ s with Weight := 100 } : Service) :: post) =
      SRVweights w (pre ++ s :: post) := by
  induction pre generalizing w with
  | nil =>
    simp only [List.nil_append, SRVweights_cons]
    simp [effWeight, h0]
  | cons t pre ih =>
    simp only [List.cons_append, SRVweights_cons]
    exact ih _

theorem SRVweight_unset_eq (w : Int → Option Int) (s : Service) (h0 : s.Weight = 0) :
    SRVweight w ({ s with Weight := 100 } : Service) = SRVweight w s := by
  simp [SRVweight, h0, float64_100]

theorem SRVserv_unset (E : Env) (zone : String) (state : Request) (w : Int → Option Int)
    (st : SRVstate) (s : Service) (h0 : s.Weight = 0) :
    SRVserv E zone state w st ({ s with Weight := 100 } : Service) =
      SRVserv E zone state w st s := by
  unfold SRVserv
  rw [SRVweight_unset_eq w s h0]
  rfl

theorem SRVweights_list_unset (pre post : List Service) (s : Service) (h0 : s.Weight = 0) :
    (pre ++ ({ s with Weight := 100 } : Service) :: post).map
        (SRVweight (SRVweights (fun _ => none)
          (pre ++ ({ s with Weight := 100 } : Service) :: post))) =
      (pre ++ s :: post).map (SRVweight (SRVweights (fun _ => none) (pre ++ s :: post))) := by
  rw [SRVweights_unset _ pre post s h0]
  simp [SRVweight_unset_eq _ s h0]

theorem records_withServices (E : Env) (svcs : List Service) (state : Request)
    (exact : Bool) : records (E.withServices svcs) state exact = (svcs, none) := rfl

theorem SRV_withServices_unset (E : Env) (zone : String) (state : Request)
    (pre post : List Service) (s : Service) (h0 : s.Weight = 0) :
    SRV (E.withServices (pre ++ ({ s with Weight := 100 } : Service) :: post)) zone state =
      SRV (E.withServices (pre ++ s :: post)) zone state := by
  rw [SRV_run _ zone state _ (records_withServices E _ state false),
    SRV_run _ zone state _ (records_withServices E _ state false)]
  unfold SRVrun
  rw [SRVweights_unset _ pre post s h0]
  have hE : ∀ (svcs1 svcs2 : List Service) (w : Int → Option Int),
      SRVserv (E.withServices svcs1) zone state w = SRVserv (E.withServices svcs2) zone state w :=
    fun _ _ _ => rfl
  rw [hE (pre ++ ({ s with Weight := 100 } : Service) :: post) (pre ++ s :: post)]
  simp only [List.foldl_append, List.foldl_cons, SRVserv_unset _ zone state _ _ s h0]

/-- C15 (as stated, refuted): there is no service list in which changing one
record's `Weight` from unset (0) to an explicit 100, all else equal, changes a
weight computed by `SRV` or anything else `SRV` returns. -/
theorem SRV_unset_never_differs_from_100 :
    ¬ ∃ (E : Env) (zone : String) (state : Request) (pre post : List Service) (s : Service),
      s.Weight = 0 ∧
      ((pre ++ ({ s with Weight := 100 } : Service) :: post).map
          (SRVweight (SRVweights (fun _ => none)
            (pre ++ ({ s with Weight := 100 } : Service) :: post))) ≠
        (pre ++ s :: post).map (SRVweight (SRVweights (fun _ => none) (pre ++ s :: post))) ∨
       SRV (E.withServices (pre ++ ({ s with Weight := 100 } : Service) :: post)) zone state ≠
        SRV (E.withServices (pre ++ s :: post)) zone state) := by
  rintro ⟨E, zone, state, pre, post, s, h0, h | h⟩
  · exact h (SRVweights_list_unset pre post s h0)
  · exact h (SRV_withServices_unset E zone state pre post s h0)

/-- C15 (as amended): in the SRV weight computation an unset weight is treated
identically to an explicit weight of 100: for every service list, changing one
record's `Weight` from unset (0) to 100, all else equal, leaves the weight
computed for every record, and the whole result of `SRV`, unchanged. -/
theorem SRV_unset_weight_is_100 (E : Env) (zone : String) (state : Request)
    (pre post : List Service) (s : Service) (h0 : s.Weight = 0) :
    (pre ++ ({ s with Weight := 100 } : Service) :: post).map
        (SRVweight (SRVweights (fun _ => none)
          (pre ++ ({ s with Weight := 100 } : Service) :: post))) =
      (pre ++ s :: post).map (SRVweight (SRVweights (fun _ => none) (pre ++ s :: post))) ∧
    SRV (E.withServices (pre ++ ({ s with Weight := 100 } : Service) :: post)) zone state =
      SRV (E.withServices (pre ++ s :: post)) zone state :=
  ⟨SRVweights_list_unset pre post s h0, SRV_withServices_unset E zone state pre post s h0⟩

/-- C15 (as amended) at a group of an unset weight and a weight of 50. -/
theorem SRV_unset_weight_is_100_witness :
    SRV ((exampleEnv emptyRegistry).withServices
        [⟨"b.example.org.", "x", 80, 10, 100, 300⟩, ⟨"c.example.org.", "y", 80, 10, 50, 300⟩])
        "miek.nl." ⟨"_http._tcp.miek.nl.", 33⟩ =
      SRV ((exampleEnv emptyRegistry).withServices
        [⟨"b.example.org.", "x", 80, 10, 0, 300⟩, ⟨"c.example.org.", "y", 80, 10, 50, 300⟩])
        "miek.nl." ⟨"_http._tcp.miek.nl.", 33⟩ :=
  (SRV_unset_weight_is_100 (exampleEnv emptyRegistry) "miek.nl." ⟨"_http._tcp.miek.nl.", 33⟩
    [] [⟨"c.example.org.", "y", 80, 10, 50, 300⟩] ⟨"b.example.org.", "x", 80, 10, 0, 300⟩ rfl).2

/-! ## CNAME completed by the external resolver -/

/-- C16 (as stated, refuted): when the registry lookup of the target
`ext.example.org.` fails, the target lies outside the zone `miek.nl.` and the
external resolver answers without records, `AAAA` returns the synthesized
CNAME as the last record; and with a second service entry holding an address,
the CNAME is followed directly by the AAAA record of that other entry. -/
theorem AAAA_cname_without_resolution :
    AAAA (nodataEnv extRegistry) "miek.nl." ⟨"www.miek.nl.", 28⟩ [] =
      some ([RR.CNAME ⟨"www.miek.nl.", 300, "ext.example.org."⟩], none) ∧
    AAAA (nodataEnv extAddrRegistry) "miek.nl." ⟨"www.miek.nl.", 28⟩ [] =
      some ([RR.CNAME ⟨"www.miek.nl.", 300, "ext.example.org."⟩,
        RR.AAAA "www.miek.nl." 300 ip6Example], none) := by
  constructor <;> decide

theorem AAAAserv_part (E : Env) (zone : String) (state : Request) (prev acc : List RR)
    (serv : Service) :
    ∃ part, AAAAserv E zone (AAAA E zone) state prev acc serv = some (acc ++ part) ∧
      AAAApart E zone state prev serv part := by
  obtain ⟨r, hr⟩ := AAAA_returns E zone _ (state.NewWithQuestion serv.Host state.QType)
    (prev ++ [RR.CNAME (serv.NewCNAME state.QName serv.Host)]) rfl
  unfold AAAAserv
  rcases hip : E.ParseIP serv.Host with _ | ⟨b | b⟩
  · dsimp only
    by_cases hm : E.Matches state.Name (E.Fqdn serv.Host) = true
    · rw [if_pos hm]
      exact ⟨[], by simp, Or.inl rfl⟩
    rw [if_neg hm]
    by_cases hlen : prev.length > 7
    · rw [if_pos hlen]
      exact ⟨[], by simp, Or.inl rfl⟩
    rw [if_neg hlen]
    by_cases hdup : DuplicateCNAME (serv.NewCNAME state.QName serv.Host) prev = true
    · rw [if_pos hdup]
      exact ⟨[], by simp, Or.inl rfl⟩
    rw [if_neg hdup, hr]
    obtain ⟨next, _ | e⟩ := r
    · dsimp only
      by_cases hn : next.length > 0
      · rw [if_pos hn]
        refine ⟨RR.CNAME (serv.NewCNAME state.QName serv.Host) :: next, by simp,
          Or.inr (Or.inr (Or.inl ⟨next, ?_, hr, rfl⟩))⟩
        intro h0
        rw [h0] at hn
        simp at hn
      · rw [if_neg hn]
        exact ⟨[], by simp, Or.inl rfl⟩
    · dsimp only
      by_cases hsub : E.IsSubDomain zone (serv.NewCNAME state.QName serv.Host).Target = true
      · rw [if_pos hsub]
        exact ⟨[], by simp, Or.inl rfl⟩
      rw [if_neg hsub]
      rcases hp : E.ProxyLookup state (serv.NewCNAME state.QName serv.Host).Target
        state.QType with ⟨answer, _ | e1⟩
      · exact ⟨RR.CNAME (serv.NewCNAME state.QName serv.Host) :: answer, by simp,
          Or.inr (Or.inr (Or.inr ⟨answer, next, e, hr, hp, rfl⟩))⟩
      · exact ⟨[], by simp, Or.inl rfl⟩
  · exact ⟨[], by simp, Or.inl rfl⟩
  · exact ⟨[serv.NewAAAA state.QName (IP.v6 b)], rfl, Or.inr (Or.inl ⟨b, hip, rfl⟩)⟩

theorem AAAAloop_parts (E : Env) (zone : String) (state : Request) (prev : List RR)
    (svcs : List Service) :
    ∀ acc, ∃ parts, AAAAloop E zone (AAAA E zone) state prev acc svcs =
        some (acc ++ parts.flatten) ∧
      List.Forall₂ (AAAApart E zone state prev) svcs parts := by
  induction svcs with
  | nil => intro acc; exact ⟨[], by simp [AAAAloop], List.Forall₂.nil⟩
  | cons serv rest ih =>
    intro acc
    obtain ⟨part, h1, hpart⟩ := AAAAserv_part E zone state prev acc serv
    obtain ⟨parts, h2, hparts⟩ := ih (acc ++ part)
    refine ⟨part :: parts, ?_, List.Forall₂.cons hpart hparts⟩
    simp only [AAAAloop, h1, h2]
    simp

/-- C16 (as amended): when the registry lookup for the query name succeeds
with the services `svcs`, the list `AAAA` returns is the concatenation, in the
order of `svcs`, of one part per service entry, and each part is empty, or the
AAAA record of the entry's IPv6 host, or the synthesized CNAME immediately
followed by the records of the successful recursive call for its target, of
which there is at least one, or, after a failed recursive call, the
synthesized CNAME immediately followed by the answer records of the external
resolver, however many. -/
theorem AAAA_cname_precedes_its_resolution (E : Env) (zone : String) (state : Request)
    (prev : List RR) (svcs : List Service) (hreg : records E state false = (svcs, none)) :
    ∃ parts, AAAA E zone state prev = some (parts.flatten, none) ∧
      List.Forall₂ (AAAApart E zone state prev) svcs parts := by
  obtain ⟨parts, h, hparts⟩ := AAAAloop_parts E zone state prev svcs []
  refine ⟨parts, ?_, hparts⟩
  rw [AAAA_unfold]
  unfold AAAAbody
  simp only [hreg, h]
  simp

/-- C16 (as amended) at the registry in which `www.miek.nl.` points to the
name `cname-target`, which has an IPv6 address. -/
theorem AAAA_cname_precedes_its_resolution_witness :
    ∃ parts, AAAA (exampleEnv cnameRegistry) "miek.nl." ⟨"www.miek.nl.", 28⟩ [] =
        some (parts.flatten, none) ∧
      List.Forall₂ (AAAApart (exampleEnv cnameRegistry) "miek.nl." ⟨"www.miek.nl.", 28⟩ [])
        [⟨"cname-target", "", 0, 0, 0, 300⟩] parts :=
  AAAA_cname_precedes_its_resolution (exampleEnv cnameRegistry) "miek.nl."
    ⟨"www.miek.nl.", 28⟩ [] [⟨"cname-target", "", 0, 0, 0, 300⟩] (by decide)

/-! ## Failures below the top level of `AAAA` -/

theorem AAAA_ok_of_lookup (E : Env) (zone : String) (state : Request) (prev : List RR)
    (svcs : List Service) (hreg : records E state false = (svcs, none)) :
    ∃ rs, AAAA E zone state prev = some (rs, none) := by
  obtain ⟨r, hr⟩ := AAAA_returns E zone _ state prev rfl
  rw [AAAA_unfold] at hr ⊢
  unfold AAAAbody at hr ⊢
  simp only [hreg] at hr ⊢
  cases hl : AAAAloop E zone (AAAA E zone) state prev [] svcs with
  | none => simp [hl] at hr
  | some rs => exact ⟨rs, rfl⟩

/-- C18: failures below the top level never fail `AAAA`.  When the registry
lookup for the query name succeeds, `AAAA` returns no error; and a name host
whose recursive call fails leaves the records unchanged when its target is
inside the zone, and also when it is outside the zone and the external
resolver fails. -/
theorem AAAA_lower_failures_swallowed (E : Env) (zone : String) (state : Request)
    (prev : List RR) :
    (∀ svcs, records E state false = (svcs, none) →
      ∃ rs, AAAA E zone state prev = some (rs, none)) ∧
    (∀ (acc : List RR) (serv : Service) (x : List RR) (e : Err),
      E.ParseIP serv.Host = none →
      AAAA E zone (state.NewWithQuestion serv.Host state.QType)
        (prev ++ [RR.CNAME (serv.NewCNAME state.QName serv.Host)]) = some (x, some e) →
      E.IsSubDomain zone (serv.NewCNAME state.QName serv.Host).Target = true →
        AAAAserv E zone (AAAA E zone) state prev acc serv = some acc) ∧
    (∀ (acc : List RR) (serv : Service) (x a : List RR) (e e1 : Err),
      E.ParseIP serv.Host = none →
      AAAA E zone (state.NewWithQuestion serv.Host state.QType)
        (prev ++ [RR.CNAME (serv.NewCNAME state.QName serv.Host)]) = some (x, some e) →
      E.IsSubDomain zone (serv.NewCNAME state.QName serv.Host).Target = false →
      E.ProxyLookup state (serv.NewCNAME state.QName serv.Host).Target state.QType =
        (a, some e1) →
        AAAAserv E zone (AAAA E zone) state prev acc serv = some acc) := by
  refine ⟨fun svcs hreg => AAAA_ok_of_lookup E zone state prev svcs hreg, ?_, ?_⟩
  · intro acc serv x e hname hrec hsub
    unfold AAAAserv
    simp only [hname, hrec, hsub]
    simp
  · intro acc serv x a e e1 hname hrec hsub hproxy
    unfold AAAAserv
    simp only [hname, hrec, hsub, hproxy]
    simp

/-- C18 at the registry in which the lookup of the CNAME target fails and the
resolver is unreachable: no error and no record. -/
theorem AAAA_lower_failures_swallowed_witness :
    AAAA (exampleEnv extRegistry) "miek.nl." ⟨"www.miek.nl.", 28⟩ [] = some ([], none) := by
  obtain ⟨rs, hrs⟩ := (AAAA_lower_failures_swallowed (exampleEnv extRegistry) "miek.nl."
    ⟨"www.miek.nl.", 28⟩ []).1 [⟨"ext.example.org.", "", 0, 0, 0, 300⟩] (by decide)
  have hstep := (AAAA_lower_failures_swallowed (exampleEnv extRegistry) "miek.nl."
    ⟨"www.miek.nl.", 28⟩ []).2.2 [] ⟨"ext.example.org.", "", 0, 0, 0, 300⟩ [] []
    "not found" "unreachable" (by decide) (by decide) (by decide) (by decide)
  rw [AAAA_unfold]
  unfold AAAAbody
  have hreg : records (exampleEnv extRegistry) ⟨"www.miek.nl.", 28⟩ false =
      ([⟨"ext.example.org.", "", 0, 0, 0, 300⟩], none) := by decide
  simp only [hreg, AAAAloop, hstep]

/-! ## Termination of `AAAA` -/

/-- C19: `AAAA` terminates for every registry.  The call returns, and does so
with at most `8 - min 8 n` recursive calls nested below it for a chain of `n`
records (8 from the empty chain); each recursive call is made with a chain one
record longer than the caller's, only when the caller's chain holds at most 7
records, and then `8 - min 8 (chain length)` is strictly smaller for the
callee. -/
theorem AAAA_terminates (E : Env) (zone : String) (state : Request) (prev : List RR) :
    (∃ r, AAAA E zone state prev = some r ∧
      ∀ fuel, 8 - min 8 prev.length < fuel → AAAAfuel E zone fuel state prev = some r) ∧
    (∃ r, AAAAfuel E zone 9 state [] = some r) ∧
    (∀ recur recur' : Request → List RR → Option (List RR × Option Err),
      (∀ st c, c.length = prev.length + 1 → prev.length ≤ 7 →
        8 - min 8 c.length < 8 - min 8 prev.length → recur st c = recur' st c) →
        AAAAbody E zone recur state prev = AAAAbody E zone recur' state prev) := by
  refine ⟨?_, ?_, ?_⟩
  · obtain ⟨r, hr⟩ := AAAA_returns E zone _ state prev rfl
    refine ⟨r, hr, fun fuel hf => ?_⟩
    rw [AAAAfuel_enough E zone fuel state prev (by omega)]
    exact hr
  · exact AAAA_returns E zone _ state [] rfl
  · intro recur recur' h
    apply AAAAbody_congr
    intro st c hc hc8
    exact h st c hc (by omega) (by omega)

/-- C19 at a registry with the cycle `a. -> b. -> a.` and at a registry with an
endless chain of fresh names: `AAAA` returns, without records and without
error. -/
theorem AAAA_terminates_witness :
    (∃ r, AAAA (exampleEnv cycleRegistry) "cluster.local." ⟨"a.", 28⟩ [] = some r) ∧
    AAAA (exampleEnv cycleRegistry) "cluster.local." ⟨"a.", 28⟩ [] = some ([], none) ∧
    AAAA (exampleEnv endlessRegistry) "cluster.local." ⟨"n.", 28⟩ [] = some ([], none) := by
  refine ⟨?_, by decide, by decide⟩
  obtain ⟨r, hr, _⟩ := (AAAA_terminates (exampleEnv cycleRegistry) "cluster.local."
    ⟨"a.", 28⟩ []).1
  exact ⟨r, hr⟩

/-! ## Range of the weights of `SRV` -/

end Kubernetes
